import Mathlib

/-!
# Verification of the aura visual-editor synchronization engine

This file gives a shallow embedding, in Lean 4, of the source-text
insertion/removal engine, the DOM scanner, the DOM-to-source generators and
the tag-minting scheme of the aura repository, and proves or refutes the
frozen claims about them.

Conventions of the embedding:

* JavaScript strings are Lean `String`s; the JS operations used by the code
  (`includes`, `split`, `join`, `trim`, `match(/^(\s*)/)`, `replace`) are
  modelled by the executable functions in the `Js` section below, each a
  direct transliteration of the JS semantics on the character list.
* `Array.prototype.split('\n')` / `join('\n')` boundaries are kept explicit:
  the engine functions split the source into lines, operate on the line
  list, and re-join, exactly as the TypeScript does.
* JS numbers used as counters (`depth`) are modelled as `Int` (they can go
  negative); indices as `Nat` with the sign handled at the use site.
* `Date.now()` is modelled as an explicit `Nat` argument: the code reads the
  clock once per call and interpolates it in decimal, which is `Nat.repr`.
* The live DOM is modelled by the `Dom`/`DomList` mutual inductive: an
  element node carries its lower-cased tag name (every use of `tagName` in
  the source immediately lower-cases it), its attribute list in document
  order, and its child nodes; `element.children` is the element children,
  `element.childNodes` additionally the text nodes.
-/

/-! ## Models of the JavaScript string primitives -/

/-- Does the character list start with `pat`? (helper for `strIncludes`). -/
def charsHasPre : List Char → List Char → Bool
  | [], _ => true
  | _ :: _, [] => false
  | p :: ps, c :: cs => p = c && charsHasPre ps cs

/-- Does the character list contain `pat` as a contiguous run?
(JS `String.prototype.includes`). -/
def charsHasSub (pat : List Char) : List Char → Bool
  | [] => pat.isEmpty
  | c :: cs => charsHasPre pat (c :: cs) || charsHasSub pat cs

/-- JS `s.includes(pat)`. -/
def strIncludes (s pat : String) : Bool := charsHasSub pat.data s.data

/-- JS `s.match(/^(\s*)/)[1]`: the leading whitespace of `s`. -/
def leadingWS (s : String) : String := ⟨s.data.takeWhile Char.isWhitespace⟩

/-- JS `String.prototype.trim` on a character list. -/
def trimChars (l : List Char) : List Char :=
  ((l.dropWhile Char.isWhitespace).reverse.dropWhile Char.isWhitespace).reverse

/-- JS `s.trim()`. -/
def jsTrim (s : String) : String := ⟨trimChars s.data⟩

/-- JS `String.prototype.split` with a one-character separator, on character
lists.  `splitChars sep l` is never `[]`. -/
def splitChars (sep : Char) : List Char → List (List Char)
  | [] => [[]]
  | c :: rest =>
    match splitChars sep rest with
    | [] => [[c]]
    | h :: t => if c = sep then [] :: h :: t else (c :: h) :: t

/-- JS `s.split(sep)` for a one-character separator. -/
def jsSplit (sep : Char) (s : String) : List String :=
  (splitChars sep s.data).map (fun l => ⟨l⟩)

/-- JS `appContent.split('\n')`. -/
def splitLines (s : String) : List String := jsSplit '\n' s

/-- JS `Array.prototype.join(sep)`. -/
def joinList (sep : String) : List String → String
  | [] => ""
  | [x] => x
  | x :: y :: rest => x ++ sep ++ joinList sep (y :: rest)

/-- JS `lines.join('\n')`. -/
def joinLines (ls : List String) : String := joinList "\n" ls

/-- JS `s.replace(pat, rep)` with a plain-string pattern: replaces the first
occurrence only, on character lists. -/
def replaceOnceChars (pat rep : List Char) : List Char → List Char
  | [] => []
  | c :: cs =>
    if charsHasPre pat (c :: cs) then rep ++ (c :: cs).drop pat.length
    else c :: replaceOnceChars pat rep cs

/-- JS `s.replace(pat, rep)` for a plain-string pattern (first occurrence). -/
def jsReplaceOnce (s pat rep : String) : String :=
  ⟨replaceOnceChars pat.data rep.data s.data⟩

/-! ## part_002 (ComponentsPanel variant): source insertion/removal engine -/

namespace Part002

/-- The text `data-webstudio-element="tag"` searched for by the engine. -/
def attrMarker (tag : String) : String := "data-webstudio-element=\"" ++ tag ++ "\""

/-- A line the depth scan counts as opening a paired tag:
`line.includes('<') && !line.includes('</') && !line.includes('/>')`. -/
def incL (l : String) : Bool :=
  strIncludes l "<" && !strIncludes l "</" && !strIncludes l "/>"

/-- A line the depth scan counts as closing a tag: `line.includes('</')`. -/
def decL (l : String) : Bool := strIncludes l "</"

/-- `targetIndent` from `lines[j-1]?.match(/^(\s*)/)`: the leading whitespace
of the previous line, or the ten-space default when there is none. -/
def indentOfPrev : Option String → String
  | some p => leadingWS p
  | none => "          "

/-- The inner loop of `addComponentToExistingApp`'s container search: starting
at absolute index `j` with the unprocessed suffix, running `depth` and
`foundOpening` state, return the absolute index of the line at which the
depth counter first returns to zero on a closing line, together with the
target indentation read from the line above it. -/
def scanClose : List String → Nat → Option String → Int → Bool → Option (Nat × String)
  | [], _, _, _, _ => none
  | l :: rest, j, prev, depth, found =>
    let found1 := if incL l then true else found
    let d1 := if incL l then depth + 1 else depth
    if decL l then
      let d2 := d1 - 1
      if found1 && d2 == 0 then some (j, indentOfPrev prev)
      else scanClose rest (j + 1) (some l) d2 found1
    else scanClose rest (j + 1) (some l) d1 found1

/-- Insertion phase 1: find the line carrying the selected element's tag
attribute; the insertion point is that line, the indent its leading
whitespace. -/
def findSelLine (marker : String) : List String → Nat → Option (Nat × String)
  | [], _ => none
  | l :: rest, i =>
    if strIncludes l marker then some (i, leadingWS l)
    else findSelLine marker rest (i + 1)

/-- Insertion phase 2: find the first line carrying the `actions` or
`container` anchor, then depth-scan for its closing line; the insertion point
is one line above the closing line (`insertionLine = j - 1`).  When the scan
hits at `j = 0` the JS sets `insertionLine = -1`, which reads as "not found"
and the outer loop continues. -/
def findAnchorIns : List String → Nat → Option String → Option (Nat × String)
  | [], _, _ => none
  | l :: rest, i, prev =>
    if strIncludes l (attrMarker "actions") || strIncludes l (attrMarker "container") then
      match scanClose (l :: rest) i prev 0 false with
      | some (j, ind) =>
        if j = 0 then findAnchorIns rest (i + 1) (some l) else some (j - 1, ind)
      | none => findAnchorIns rest (i + 1) (some l)
    else findAnchorIns rest (i + 1) (some l)

/-- Insertion phase 3 (last resort): the last line that contains `</div>` and
is exactly `</div>` after trimming. -/
def lastCloseDivIdx : List String → Nat → Option Nat
  | [], _ => none
  | l :: rest, i =>
    match lastCloseDivIdx rest (i + 1) with
    | some j => some j
    | none =>
      if strIncludes l "</div>" && jsTrim l == "</div>" then some i else none

/-- `addComponentToExistingApp(appContent, component, selectedElement)` from
part_002, with the already-generated component JSX passed in (the source
computes it as `generateComponentJSX(component, uniqueId, '')`) and the
selected element's `dataAttribute` as an optional string (absent or empty
means no usable selection, per JS truthiness). -/
def insertionPoint (lines : List String) (selDataAttr : Option String) :
    Option (Nat × String) :=
  let p1 : Option (Nat × String) :=
    match selDataAttr with
    | some a => if a = "" then none else findSelLine (attrMarker a) lines 0
    | none => none
  match p1 with
  | some ki => some ki
  | none =>
    match findAnchorIns lines 0 none with
    | some ki => some ki
    | none => (lastCloseDivIdx lines 0).map (fun i => (i, "          "))

/-- The final splice of `addComponentToExistingApp`:
`[...lines.slice(0, insertionLine), targetIndent + componentJSX,
...lines.slice(insertionLine)].join('\n')`, or the unchanged content when no
insertion point was found. -/
def addComponentToExistingApp (appContent componentJSX : String)
    (selDataAttr : Option String) : String :=
  let lines := splitLines appContent
  match insertionPoint lines selDataAttr with
  | none => appContent
  | some (k, ind) =>
    joinLines (lines.take k ++ (ind ++ componentJSX) :: lines.drop k)

/-- One pass of `removeComponentFromApp`'s line loop, threading the
`skipLines`/`depth` state; returns the kept lines and the final state. -/
def removeRun (marker : String) : List String → Bool → Int → (List String × Bool × Int)
  | [], skip, depth => ([], skip, depth)
  | l :: rest, skip, depth =>
    if strIncludes l marker then
      if strIncludes l "/>" then removeRun marker rest false 0
      else if strIncludes l "<" && !strIncludes l "</" then removeRun marker rest true 1
      else removeRun marker rest true 0
    else if skip then
      let d1 := if strIncludes l "<" && !strIncludes l "</" && !strIncludes l "/>"
                then depth + 1 else depth
      if strIncludes l "</" then
        removeRun marker rest (if d1 - 1 == 0 then false else true) (d1 - 1)
      else removeRun marker rest true d1
    else
      let r := removeRun marker rest skip depth
      (l :: r.1, r.2)

/-- `removeComponentFromApp(appContent, elementId)` from part_002. -/
def removeComponentFromApp (appContent elementId : String) : String :=
  joinLines (removeRun (attrMarker elementId) (splitLines appContent) false 0).1

/-- `generateComponentJSX(component, uniqueId, indent)` from part_002: replace
the first `data-webstudio-element="..."` of the template with the unique id.
The regex `/data-webstudio-element="[^"]*"/` is modelled for templates whose
tag value holds no double quote, which every template in the file satisfies. -/
def generateComponentJSX (template oldTag uniqueId : String) : String :=
  jsReplaceOnce template (attrMarker oldTag) (attrMarker uniqueId)

/-- The unique id minted on component insertion:
`` `${component.id}-${Date.now()}` ``. -/
def mintUniqueId (componentId : String) (now : Nat) : String :=
  componentId ++ "-" ++ Nat.repr now

/-- The id minted on custom-component creation: `` `custom-${Date.now()}` ``. -/
def mintCustomId (now : Nat) : String := "custom-" ++ Nat.repr now

end Part002

/-! ## part_005 (LayersPanel variant): duplication tag minting -/

namespace Part005

/-- The tag minted on layer duplication:
`` `${node.dataAttribute}-copy-${Date.now()}` ``. -/
def mintDuplicateTag (dataAttribute : String) (now : Nat) : String :=
  dataAttribute ++ "-copy-" ++ Nat.repr now

end Part005

/-! ## WebStudio: zoom clamping -/

namespace WebStudio

/-- `handleZoomChange`: `setZoomLevel(Math.max(10, Math.min(500, newZoom)))`.
The requested zoom is a JS number; the UI only ever produces integral values,
modelled as `Int`. -/
def handleZoomChange (newZoom : Int) : Int := max 10 (min 500 newZoom)

end WebStudio

/-! ## The live DOM model -/

mutual
/-- A DOM node: an element (lower-cased tag name, attributes in document
order, child nodes) or a text node. -/
inductive Dom where
  | elem (tag : String) (attrs : List (String × String)) (children : DomList)
  | text (s : String)
deriving Repr
/-- The child-node list of an element (`element.childNodes`). -/
inductive DomList where
  | nil : DomList
  | cons : Dom → DomList → DomList
deriving Repr
end

/-- `element.getAttribute(name)`: the first attribute with that name. -/
def Dom.getAttr : Dom → String → Option String
  | .elem _ attrs _, n => (attrs.find? (fun p => p.1 == n)).map (fun p => p.2)
  | .text _, _ => none

/-- `element.hasAttribute(name)`. -/
def Dom.hasAttr (d : Dom) (n : String) : Bool := (d.getAttr n).isSome

/-- Is this node an element carrying the `data-webstudio-element` attribute?
(the filter applied to `element.children` by both generators and the scan). -/
def Dom.isTaggedElem (d : Dom) : Bool := d.hasAttr "data-webstudio-element"

/-- `element.tagName.toLowerCase()` (the model stores tags lower-cased, as
every use in the source lower-cases `tagName` immediately). -/
def Dom.tagName : Dom → String
  | .elem t _ _ => t
  | .text _ => ""

/-- `element.id`: the `id` attribute, or the empty string. -/
def Dom.idAttr (d : Dom) : String := (d.getAttr "id").getD ""

/-- `element.className`: the `class` attribute, or the empty string. -/
def Dom.classAttr (d : Dom) : String := (d.getAttr "class").getD ""

mutual
/-- `node.textContent`: the concatenation of all descendant text. -/
def Dom.textContent : Dom → String
  | .text s => s
  | .elem _ _ cs => DomList.textContentL cs
def DomList.textContentL : DomList → String
  | .nil => ""
  | .cons c rest => Dom.textContent c ++ DomList.textContentL rest
end

/-- The direct text of a child list: concatenation of the child text nodes
only (helper of part_005's `getDirectTextContent`). -/
def DomList.directText : DomList → String
  | .nil => ""
  | .cons (.text s) rest => s ++ DomList.directText rest
  | .cons (.elem _ _ _) rest => DomList.directText rest

/-- `Array.from(element.childNodes).some(n => n.nodeType === Node.TEXT_NODE)`. -/
def DomList.hasTextNode : DomList → Bool
  | .nil => false
  | .cons (.text _) _ => true
  | .cons (.elem _ _ _) rest => DomList.hasTextNode rest

/-- JS `s.startsWith(pat)`. -/
def strStarts (s pat : String) : Bool := charsHasPre pat.data s.data

/-- JS `s.substring(0, n)` (string length counted in characters). -/
def strTake (s : String) (n : Nat) : String := ⟨s.data.take n⟩

/-- The inline-style declaration list of an element, as read through the
CSSOM: parse the `style` attribute on `;` and `:`, trimming both sides. -/
def Dom.styleDecls (d : Dom) : List (String × String) :=
  match d.getAttr "style" with
  | none => []
  | some v =>
    (jsSplit ';' v).filterMap (fun s =>
      match jsSplit ':' s with
      | p :: w :: _ => some (jsTrim p, jsTrim w)
      | _ => none)

/-- `element.style.display`: the CSSOM value of `display` (the last
declaration of the property wins, per the cascade), or the empty string. -/
def Dom.styleDisplay (d : Dom) : String :=
  ((((d.styleDecls).filter (fun pv => pv.1 == "display")).getLast?).map (fun pv => pv.2)).getD ""

/-! ## part_005 (LayersPanel variant): DOM-to-source generator -/

namespace Part005

/-- The camel-casing of CSS property names: `prop.replace` with the global
regex matching a dash followed by a lower-case letter, replacing the pair by
the upper-cased letter. -/
def camelChars : List Char → List Char
  | [] => []
  | '-' :: c :: rest =>
    if c.isLower then c.toUpper :: camelChars rest else '-' :: camelChars (c :: rest)
  | c :: rest => c :: camelChars rest

/-- One CSS declaration `prop: val` turned into JSX object syntax
`camelProp: 'val'`; the empty string when the piece has no property or no
value (dropped by the caller's filter). -/
def cssDeclToJSX (s : String) : String :=
  match jsSplit ':' s with
  | p :: v :: _ =>
    if p == "" || v == "" then ""
    else String.mk (camelChars (jsTrim p).data) ++ ": \x27" ++ jsTrim v ++ "\x27"
  | _ => ""

/-- The body of the generated `style={{...}}` attribute: split the inline
style on `;`, keep the non-blank pieces, convert each declaration, drop the
failures, and join with `, `. -/
def styleObjOf (value : String) : String :=
  joinList ", "
    ((((jsSplit ';' value).filter (fun s => jsTrim s != "")).map cssDeclToJSX).filter
      (fun s => s != ""))

/-- One attribute of the element turned into its JSX form, or `none` when the
generator drops it (part_005 branch order: `class`, then any `data-` name,
then non-empty `style`, then the pass-through allow-list). -/
def attrToJSX (name value : String) : Option String :=
  if name == "class" then some ("className=\"" ++ value ++ "\"")
  else if strStarts name "data-" then some (name ++ "=\"" ++ value ++ "\"")
  else if name == "style" && value != "" then
    let so := styleObjOf value
    if so != "" then some ("style=\x7b\x7b" ++ so ++ "\x7d\x7d") else none
  else if (["src", "alt", "href", "type", "placeholder"] : List String).contains name then
    some (name ++ "=\"" ++ value ++ "\"")
  else none

/-- The pushed `attributes` array of the generator. -/
def attrsToJSX (attrs : List (String × String)) : List String :=
  attrs.filterMap (fun p => attrToJSX p.1 p.2)

/-- `getDirectTextContent(element)`: direct text children only, trimmed. -/
def getDirectTextContent (cs : DomList) : String := jsTrim (DomList.directText cs)

/-- The fixed set of void tag names emitted self-closing. -/
def voidTags : List String := ["img", "input", "br", "hr"]

mutual
/-- `generateJSXFromDOM(element, indent)` from part_005.  The source only
invokes it on element nodes; a text node yields the empty string. -/
def generateJSXFromDOM : Dom → Nat → String
  | .text _, _ => ""
  | .elem tag attrs cs, indent =>
    let indentStr := String.mk (List.replicate indent ' ')
    let aj := attrsToJSX attrs
    let attrString := if aj.length > 0 then " " ++ joinList " " aj else ""
    let childJSX := genChildren cs (indent + 2)
    if childJSX.length > 0 then
      indentStr ++ "<" ++ tag ++ attrString ++ ">\n" ++ joinList "\n" childJSX ++
        "\n" ++ indentStr ++ "</" ++ tag ++ ">"
    else
      let textContent := getDirectTextContent cs
      if textContent != "" && jsTrim textContent != "" then
        indentStr ++ "<" ++ tag ++ attrString ++ ">\n" ++ indentStr ++ "  " ++
          jsTrim textContent ++ "\n" ++ indentStr ++ "</" ++ tag ++ ">"
      else if voidTags.contains tag then
        indentStr ++ "<" ++ tag ++ attrString ++ " />"
      else
        indentStr ++ "<" ++ tag ++ attrString ++ "></" ++ tag ++ ">"
/-- The JSX of the tagged element children, in order
(`element.children` filtered by `hasAttribute('data-webstudio-element')`,
each generated at `indent + 2`). -/
def genChildren : DomList → Nat → List String
  | .nil, _ => []
  | .cons c rest, ind =>
    (if c.isTaggedElem then [generateJSXFromDOM c ind] else []) ++ genChildren rest ind
end

end Part005

/-! ## LayersPanel.tsx: DOM-to-source generator, display name, depth, scan -/

namespace LayersPanel

/-- One attribute turned into its JSX form for the LayersPanel.tsx generator
(`class`, then any `data-webstudio-` name, then the allow-list including
`id`; inline `style` has no branch and is dropped). -/
def attrToJSX (name value : String) : Option String :=
  if name == "class" then some ("className=\"" ++ value ++ "\"")
  else if strStarts name "data-webstudio-" then some (name ++ "=\"" ++ value ++ "\"")
  else if (["src", "alt", "href", "type", "placeholder", "id"] : List String).contains name then
    some (name ++ "=\"" ++ value ++ "\"")
  else none

/-- The pushed `attributes` array of the LayersPanel.tsx generator. -/
def attrsToJSX (attrs : List (String × String)) : List String :=
  attrs.filterMap (fun p => attrToJSX p.1 p.2)

mutual
/-- `generateJSXFromDOM(element, indent)` from LayersPanel.tsx.  Note: every
element with no tagged children and no direct text node is emitted
self-closing, and `textContent` (all descendant text) is used as the body
when a direct text node exists. -/
def generateJSXFromDOM : Dom → Nat → String
  | .text _, _ => ""
  | .elem tag attrs cs, indent =>
    let indentStr := String.mk (List.replicate indent ' ')
    let aj := attrsToJSX attrs
    let attrString := if aj.length > 0 then " " ++ joinList " " aj else ""
    let childJSX := genChildren cs (indent + 2)
    let textContent := if DomList.hasTextNode cs then jsTrim (DomList.textContentL cs) else ""
    if childJSX.length = 0 && textContent == "" then
      "<" ++ tag ++ attrString ++ " />"
    else if childJSX.length = 0 then
      "<" ++ tag ++ attrString ++ ">" ++ textContent ++ "</" ++ tag ++ ">"
    else
      "<" ++ tag ++ attrString ++ ">\n" ++
        joinList "\n" (childJSX.map (fun c => indentStr ++ "  " ++ c)) ++
        "\n" ++ indentStr ++ "</" ++ tag ++ ">"
/-- The JSX of the tagged element children, each generated at `indent + 2`. -/
def genChildren : DomList → Nat → List String
  | .nil, _ => []
  | .cons c rest, ind =>
    (if c.isTaggedElem then [generateJSXFromDOM c ind] else []) ++ genChildren rest ind
end

/-- `getElementDisplayName(element, dataAttr)` from LayersPanel.tsx. -/
def getElementDisplayName (el : Dom) (dataAttr : String) : String :=
  let tag := el.tagName
  if dataAttr != "" && dataAttr != tag then dataAttr
  else if el.idAttr != "" then "#" ++ el.idAttr
  else if el.classAttr != "" then "." ++ ((jsSplit ' ' el.classAttr).headD "")
  else if (["h1", "h2", "h3", "p", "span", "button", "a"] : List String).contains tag then
    let text := jsTrim el.textContent
    if text != "" then
      tag ++ ": \"" ++ strTake text 20 ++
        (if text.data.length > 20 then "..." else "") ++ "\""
    else tag
  else tag

/-- What `getElementDepth` observes about one ancestor element: whether it
carries the tag attribute, and whether it is (reference-equal to) the
document's designated root element. -/
structure Anc where
  hasTag : Bool
  isRoot : Bool
deriving Repr, DecidableEq

/-- `getElementDepth(element)` from LayersPanel.tsx, over the element's
ancestor chain listed nearest-first: walk upward while the ancestor is not
the root element and carries the tag attribute. -/
def getElementDepth : List Anc → Nat
  | [] => 0
  | a :: rest => if !a.isRoot && a.hasTag then getElementDepth rest + 1 else 0

end LayersPanel

namespace LayersPanel

/-- One element found while walking the document: its subtree, its path of
child indices (standing in for the object reference), the ancestor elements
nearest-first (path and whether each carries the tag attribute), and
`parentElement?.getAttribute('data-webstudio-element')` (JS `null` and
`undefined` collapsed to `none`, as every use only tests truthiness). -/
structure ScanEntry where
  path : List Nat
  el : Dom
  ancs : List (List Nat × Bool)
  parentAttr : Option String

mutual
/-- Walk the document in document (pre-)order collecting every element. -/
def collectElems : Dom → List Nat → List (List Nat × Bool) → Option String → List ScanEntry
  | .text _, _, _, _ => []
  | .elem t a cs, p, ancs, parAttr =>
    ⟨p, .elem t a cs, ancs, parAttr⟩ ::
      collectChildren cs 0 p ((p, (Dom.elem t a cs).isTaggedElem) :: ancs)
        ((Dom.elem t a cs).getAttr "data-webstudio-element")
/-- Walk a child list, numbering the children. -/
def collectChildren : DomList → Nat → List Nat → List (List Nat × Bool) → Option String →
    List ScanEntry
  | .nil, _, _, _, _ => []
  | .cons c rest, i, p, ancs, parAttr =>
    collectElems c (p ++ [i]) ancs parAttr ++ collectChildren rest (i + 1) p ancs parAttr
end

/-- All elements of the document in document order. -/
def allElems (d : Dom) : List ScanEntry := collectElems d [] [] none

/-- `iframeDoc.querySelectorAll('[data-webstudio-element]')` in document
order. -/
def taggedEntries (d : Dom) : List ScanEntry :=
  (allElems d).filter (fun e => e.el.isTaggedElem)

/-- `querySelector('[data-webstudio-element="root"]')`: the path of the first
element whose tag attribute is exactly `root`. -/
def rootPath (d : Dom) : Option (List Nat) :=
  (((allElems d).find?
      (fun e => e.el.getAttr "data-webstudio-element" == some "root")).map
    (fun e => e.path))

/-- A `LayerNode` as built by `updateLayersFromDOM`, with the live-node
reference replaced by nothing and the mutable `children` array replaced by
the list of child indices into the scan-order node array (an index models the
JS object reference). -/
structure FlatNode where
  id : String
  name : String
  type : String
  dataAttribute : String
  visible : Bool
  locked : Bool
  depth : Nat
  parentId : Option String
  order : Nat
  childIdx : List Nat
deriving Repr, DecidableEq

/-- Build one `LayerNode` from the `idx`-th tagged element. -/
def mkLayerNode (rp : Option (List Nat)) (idx : Nat) (e : ScanEntry) : FlatNode :=
  let dataAttr :=
    match e.el.getAttr "data-webstudio-element" with
    | some v => if v = "" then "element-" ++ Nat.repr idx else v
    | none => "element-" ++ Nat.repr idx
  { id := "layer-" ++ dataAttr ++ "-" ++ Nat.repr idx
    name := getElementDisplayName e.el dataAttr
    type := e.el.tagName
    dataAttribute := dataAttr
    visible := e.el.styleDisplay == "" || e.el.styleDisplay != "none"
    locked := e.el.hasAttr "data-locked"
    depth := getElementDepth (e.ancs.map (fun pb => ⟨pb.2, rp == some pb.1⟩))
    parentId :=
      match e.parentAttr with
      | some v => if v = "" then none else some ("layer-" ++ v)
      | none => none
    order := idx
    childIdx := [] }

/-- The flat `layerNodes` array of `updateLayersFromDOM`, in scan order. -/
def scanNodes (d : Dom) : List FlatNode :=
  ((taggedEntries d).enum).map (fun ie => mkLayerNode (rootPath d) ie.1 ie.2)

/-- The `nodeMap` lookup of `buildLayerHierarchy`: the map is filled by
successive `set` calls in scan order, so the last node with a given
`dataAttribute` wins. -/
def nodeMapGet (nodes : List FlatNode) (attr : String) : Option Nat :=
  ((nodes.enum.filter (fun inode => inode.2.dataAttribute == attr)).getLast?).map
    (fun inode => inode.1)

/-- The linking pass of `buildLayerHierarchy`: for each node in order, either
push it onto its parent's `children` (recorded as a (parent index, child
index) pair, in push order) or onto `rootNodes`. -/
def linkPass (nodes : List FlatNode) : List (Nat × Nat) × List Nat :=
  nodes.enum.foldl
    (fun acc inode =>
      match inode.2.parentId with
      | some pid =>
        match nodeMapGet nodes (jsReplaceOnce pid "layer-" "") with
        | some p => (acc.1 ++ [(p, inode.1)], acc.2)
        | none => (acc.1, acc.2 ++ [inode.1])
      | none => (acc.1, acc.2 ++ [inode.1]))
    ([], [])

/-- Stable insertion into a sorted index list (JS `Array.prototype.sort` is
stable; the comparator is `a.order - b.order`). -/
def insertByKey (key : Nat → Nat) (i : Nat) : List Nat → List Nat
  | [] => [i]
  | j :: rest => if key i ≤ key j then i :: j :: rest else j :: insertByKey key i rest

/-- Stable sort of an index list by key. -/
def sortIdx (key : Nat → Nat) : List Nat → List Nat
  | [] => []
  | i :: rest => insertByKey key i (sortIdx key rest)

/-- The layer tree produced by `buildLayerHierarchy`: the node array with the
`children` index lists filled and sorted, plus the sorted root indices.
(`sortChildren` recurses through the reachable children; on the acyclic
documents the DOM produces this equals sorting every node's pushed children,
which is what the model does.) -/
structure Hierarchy where
  nodes : List FlatNode
  roots : List Nat
deriving Repr, DecidableEq

/-- `buildLayerHierarchy(nodes)` from LayersPanel.tsx. -/
def buildLayerHierarchy (nodes : List FlatNode) : Hierarchy :=
  let pr := linkPass nodes
  let key := fun i => (((nodes.get? i).map FlatNode.order).getD 0)
  ⟨nodes.enum.map
      (fun inode =>
        { inode.2 with
          childIdx := sortIdx key ((pr.1.filter (fun pc => pc.1 == inode.1)).map
            (fun pc => pc.2)) }),
    sortIdx key pr.2⟩

/-- The panel state `updateLayersFromDOM` touches: the `layers` React state
and the project's persisted layer cache (the project's `updatedAt` timestamp
is irrelevant to the layer tree and omitted). -/
structure PanelState where
  layers : Hierarchy
  project : Option Hierarchy
deriving Repr, DecidableEq

/-- `updateLayersFromDOM()` from LayersPanel.tsx as a document→state
transformer: scan the document; with zero tagged elements warn and leave the
state alone; otherwise build the hierarchy, store it, and push it into the
project when a project is loaded and the hierarchy is non-empty. -/
def updateLayersFromDOM (d : Dom) (st : PanelState) : PanelState :=
  let entries := taggedEntries d
  if entries.length = 0 then st
  else
    let hier := buildLayerHierarchy (scanNodes d)
    { layers := hier
      project :=
        match st.project with
        | some pr => if hier.roots.length > 0 then some hier else some pr
        | none => none }

end LayersPanel

/-! ## Specification-side definitions (written from the claims' words) -/

/-- The depth described by the claim for C7: walk the ancestors (nearest
first), counting how many of them carry the tag attribute, stopping at the
designated root element. -/
def specAncestorDepth : List LayersPanel.Anc → Nat
  | [] => 0
  | a :: rest =>
    if a.isRoot then 0
    else (if a.hasTag then 1 else 0) + specAncestorDepth rest

/-- The display name described by the claim for C8: tag attribute value if
distinct from the bare tag name, otherwise the element's id, otherwise its
first CSS class, otherwise the tag name (the id/class branches formatted as
the panel formats them). -/
def specDisplayName (el : Dom) (dataAttr : String) : String :=
  if dataAttr != "" && dataAttr != el.tagName then dataAttr
  else if el.idAttr != "" then "#" ++ el.idAttr
  else if el.classAttr != "" then "." ++ ((jsSplit ' ' el.classAttr).headD "")
  else el.tagName

/-- The display name as the code actually derives it (the amended C8): the
claim's precedence extended, between the class and tag-name steps, by a
text-preview branch for the textual tags `h1 h2 h3 p span button a`. -/
def specDisplayNameAmended (el : Dom) (dataAttr : String) : String :=
  if dataAttr != "" && dataAttr != el.tagName then dataAttr
  else if el.idAttr != "" then "#" ++ el.idAttr
  else if el.classAttr != "" then "." ++ ((jsSplit ' ' el.classAttr).headD "")
  else
    let isTextual := (["h1", "h2", "h3", "p", "span", "button", "a"] : List String).contains
      el.tagName
    let text := jsTrim el.textContent
    if isTextual && text != "" then
      el.tagName ++ ": \"" ++ strTake text 20 ++
        (if text.data.length > 20 then "..." else "") ++ "\""
    else el.tagName

/-! ## Concrete documents and fragments used by the counterexamples -/

/-- A well-formed source: a container whose single child is a one-line
paragraph. -/
def srcContainer : String :=
  "<div data-webstudio-element=\"container\">\n  <p>x</p>\n</div>"

/-- A well-formed source: a container holding a nested (untagged) `div`. -/
def srcNested : String :=
  "<div data-webstudio-element=\"container\">\n  <div>\n    x\n  </div>\n</div>"

/-- A well-formed single-root fragment whose child `<span>hi</span>` sits on
one line; its tag `frag-9` appears nowhere in the sources above and no
nested element shares its `div` tag. -/
def fragPaired : String :=
  "<div data-webstudio-element=\"frag-9\">\n  <span>hi</span>\n</div>"

/-- A source containing the tag `x-1` as a self-closing line. -/
def srcWithX1 : String :=
  "<div data-webstudio-element=\"container\">\n  <img data-webstudio-element=\"x-1\" />\n</div>"

/-- `srcWithX1` with the `x-1` line removed. -/
def srcWithoutX1 : String :=
  "<div data-webstudio-element=\"container\">\n</div>"

/-- An element carrying an inline style attribute (after the property edit
`applyProperty(selection, "style.color", "#ff0000")`). -/
def styledElem : Dom :=
  .elem "h1" [("data-webstudio-element", "title"), ("style", "color: #ff0000")]
    (.cons (.text "Hello") .nil)

/-- A tagged element with no text content and no tagged children whose tag
name is not a void tag. -/
def emptyDiv : Dom := .elem "div" [("data-webstudio-element", "empty-1")] .nil

/-- A tagged paragraph whose tag attribute value equals its tag name and
which has text content but no id and no class. -/
def plainTextP : Dom :=
  .elem "p" [("data-webstudio-element", "p")] (.cons (.text "hello") .nil)

/-! ## C10 -/

/-- C10: for every requested zoom value, the stored zoom level after
`handleZoomChange` lies between 10 and 500 inclusive. -/
theorem c10_zoom_clamped (z : Int) :
    10 ≤ WebStudio.handleZoomChange z ∧ WebStudio.handleZoomChange z ≤ 500 := by
  unfold WebStudio.handleZoomChange
  exact ⟨le_max_left _ _, max_le (by norm_num) (min_le_left _ _)⟩

/-! ## C6 -/

/-- C6: running the DOM scan twice with no intervening DOM mutation yields
structurally equal layer trees (in fact equal panel states): identifiers,
depths, parent/child links and sibling ordering all coincide. -/
theorem c6_scan_idempotent (d : Dom) (st : LayersPanel.PanelState) :
    LayersPanel.updateLayersFromDOM d (LayersPanel.updateLayersFromDOM d st) =
      LayersPanel.updateLayersFromDOM d st := by
  unfold LayersPanel.updateLayersFromDOM
  by_cases h : (LayersPanel.taggedEntries d).length = 0
  · simp [h]
  · simp only [h, if_false]
    cases hp : st.project with
    | none => simp
    | some pr =>
      by_cases hr :
          (LayersPanel.buildLayerHierarchy (LayersPanel.scanNodes d)).roots.length > 0 <;>
        simp [hr]

/-! ## C7 -/

/-- C7 counterexample: with an untagged wrapper sitting between the element
and its tagged ancestors (chain nearest-first: untagged wrapper, tagged
container, root), the code computes depth 0 while the claimed
count-tagged-ancestors-up-to-root rule gives 1: the walk stops at the first
untagged ancestor instead of skipping it. -/
theorem c7_depth_counterexample :
    LayersPanel.getElementDepth [⟨false, false⟩, ⟨true, false⟩, ⟨true, true⟩] = 0 ∧
    specAncestorDepth [⟨false, false⟩, ⟨true, false⟩, ⟨true, true⟩] = 1 := by
  decide

/-- C7 amended: the scan's depth agrees with the claimed
count-tagged-ancestors-stopping-at-root rule whenever every ancestor below
the first root element carries the tag attribute (no untagged wrapper
intervenes); the walk stops early at the first untagged ancestor otherwise. -/
theorem c7_depth_amended (chain : List LayersPanel.Anc)
    (h : ∀ a ∈ chain.takeWhile (fun a => !a.isRoot), a.hasTag = true) :
    LayersPanel.getElementDepth chain = specAncestorDepth chain := by
  induction chain with
  | nil => rfl
  | cons a rest ih =>
    by_cases hr : a.isRoot = true
    · simp [LayersPanel.getElementDepth, specAncestorDepth, hr]
    · have hnr : a.isRoot = false := by
        cases hb : a.isRoot
        · rfl
        · exact absurd hb hr
      have hmem : a ∈ (a :: rest).takeWhile (fun a => !a.isRoot) := by
        simp [List.takeWhile_cons, hnr]
      have ht := h a hmem
      have hrest : ∀ b ∈ rest.takeWhile (fun a => !a.isRoot), b.hasTag = true := by
        intro b hb
        refine h b ?_
        simp only [List.takeWhile_cons, hnr, Bool.not_false, if_true, List.mem_cons]
        exact Or.inr hb
      simp [LayersPanel.getElementDepth, specAncestorDepth, hnr, ht, ih hrest]
      omega

/-- C7 witness: a chain of one tagged non-root ancestor below the root. -/
theorem c7_depth_witness :
    LayersPanel.getElementDepth [⟨true, false⟩, ⟨true, true⟩] =
      specAncestorDepth [⟨true, false⟩, ⟨true, true⟩] :=
  c7_depth_amended _ (by decide)

/-! ## C8 -/

/-- C8 counterexample: a `p` element whose tag attribute value equals its tag
name, with no id and no class but with text content.  The claimed precedence
ends at "otherwise the tag name" and yields `p`, but the code inserts an
extra text-preview step and yields `p: "hello"`. -/
theorem c8_display_name_counterexample :
    LayersPanel.getElementDisplayName plainTextP "p" = "p: \"hello\"" ∧
    specDisplayName plainTextP "p" = "p" ∧
    LayersPanel.getElementDisplayName plainTextP "p" ≠ specDisplayName plainTextP "p" := by
  decide

/-- C8 amended: the display-name precedence is: tag attribute value if
distinct from the bare tag name, otherwise `#id`, otherwise `.firstClass`,
otherwise — for the textual tags h1, h2, h3, p, span, button, a with
non-empty trimmed text — a `tag: "text"` preview truncated to 20 characters,
otherwise the tag name. -/
theorem c8_display_name_amended (el : Dom) (dataAttr : String) :
    LayersPanel.getElementDisplayName el dataAttr = specDisplayNameAmended el dataAttr := by
  unfold LayersPanel.getElementDisplayName specDisplayNameAmended
  cases h1 : (dataAttr != "" && dataAttr != el.tagName) <;>
    cases h2 : (el.idAttr != "") <;>
      cases h3 : (el.classAttr != "") <;>
        cases h4 : (["h1", "h2", "h3", "p", "span", "button", "a"] : List String).contains
            el.tagName <;>
          cases h5 : (jsTrim el.textContent != "") <;>
            (try simp_all) <;> tauto

/-! ## C5 -/

/-- C5 counterexample: the LayersPanel.tsx generator emits a `div` with no
text and no tagged children self-closing, although `div` is not in the void
set — self-closing emission is not limited to the void tags there. -/
theorem c5_self_closing_counterexample :
    LayersPanel.generateJSXFromDOM emptyDiv 4 = "<div data-webstudio-element=\"empty-1\" />" ∧
    Part005.voidTags.contains "div" = false := by
  decide

/-! ## C4 -/

/-- C4 counterexample: the LayersPanel.tsx generator has no `style` branch at
all, so regenerating an element that carries the freshly edited inline style
`color: #ff0000` yields source with no style attribute and without the new
value — the edit is lost rather than reflected. -/
theorem c4_style_dropped_counterexample :
    strIncludes (LayersPanel.generateJSXFromDOM styledElem 4) "style" = false ∧
    strIncludes (LayersPanel.generateJSXFromDOM styledElem 4) "#ff0000" = false := by
  decide

/-! ## C3 -/

/-- C3 counterexample (to the "signals not found" half of the claim): the
removal of a tag that occurs nowhere returns the source unchanged, and that
output is identical to the output of a *successful* removal of the same tag
from a source that contains it: the function's only output channel carries
no not-found signal, and its caller logs success unconditionally. -/
theorem c3_not_found_counterexample :
    Part002.removeComponentFromApp srcWithoutX1 "x-1" = srcWithoutX1 ∧
    Part002.removeComponentFromApp srcWithX1 "x-1" = srcWithoutX1 ∧
    srcWithX1 ≠ srcWithoutX1 := by
  decide

/-! ## C2 counterexample -/

/-- C2 counterexample: on a container holding a nested `div`, the depth scan
does locate the container's own closing line, but the fragment is spliced at
`insertionLine = j - 1`, one line above it — immediately before the *inner*
child's closing tag (line 3 of the result), not immediately before the
container's own closing tag. -/
theorem c2_depth_scan_counterexample :
    splitLines (Part002.addComponentToExistingApp srcNested "FRAG" none) =
      ["<div data-webstudio-element=\"container\">", "  <div>", "    x", "  FRAG",
        "  </div>", "</div>"] ∧
    Part002.addComponentToExistingApp srcNested "FRAG" none ≠
      "<div data-webstudio-element=\"container\">\n  <div>\n    x\n  </div>\nFRAG\n</div>" := by
  decide

/-! ## C1 counterexample -/

/-- C1 counterexample: inserting the well-formed fragment `fragPaired`
(single root `div`, unique tag `frag-9`, no nested `div`) and then removing
`frag-9` does not restore the source: the removal loop counts the balanced
one-line child `<span>hi</span>` as a pure closing line, ends the skip early,
and leaves the fragment's own `</div>` behind. -/
theorem c1_remove_insert_counterexample :
    strIncludes srcContainer (Part002.attrMarker "frag-9") = false ∧
    Part002.removeComponentFromApp
        (Part002.addComponentToExistingApp srcContainer fragPaired none) "frag-9" =
      "</div>\n" ++ srcContainer ∧
    Part002.removeComponentFromApp
        (Part002.addComponentToExistingApp srcContainer fragPaired none) "frag-9" ≠
      srcContainer := by
  decide

/-! ## C9 counterexample -/

/-- C9 counterexample: tag minting appends `Date.now()` with no collision
check, so two assignments within the same millisecond return equal tags —
two insertions of the same component, and even an insertion and a layer
duplication whose bases happen to align, collide. -/
theorem c9_tag_uniqueness_counterexample :
    Part002.mintUniqueId "div-container" 1700000000000 =
      Part002.mintUniqueId "div-container" 1700000000000 ∧
    Part002.mintUniqueId "div-container" 1700000000000 = "div-container-1700000000000" ∧
    Part002.mintUniqueId "hero-copy" 1700000000000 =
      Part005.mintDuplicateTag "hero" 1700000000000 := by
  constructor
  · rfl
  · constructor <;> decide

/-! ## Lemmas about the string primitives -/

/-- Strings with equal character data are equal. -/
theorem strEq_of_data {a b : String} (h : a.data = b.data) : a = b := by
  cases a
  cases b
  exact congrArg String.mk h

/-- The one-step unfolding of `splitChars` on a cons cell. -/
theorem splitChars_cons (sep c : Char) (rest : List Char) :
    splitChars sep (c :: rest) =
      match splitChars sep rest with
      | [] => [[c]]
      | h :: t => if c = sep then [] :: h :: t else (c :: h) :: t := rfl

/-- `splitChars` never returns the empty list. -/
theorem splitChars_ne_nil (sep : Char) (l : List Char) : splitChars sep l ≠ [] := by
  induction l with
  | nil => simp [splitChars]
  | cons c rest ih =>
    simp only [splitChars]
    cases h : splitChars sep rest with
    | nil => exact absurd h ih
    | cons x t =>
      by_cases hc : c = sep <;> simp [hc]

/-- Every piece produced by `splitChars` is free of the separator. -/
theorem splitChars_mem_not_sep (sep : Char) (l : List Char) :
    ∀ m ∈ splitChars sep l, sep ∉ m := by
  induction l with
  | nil => intro m hm; simp [splitChars] at hm; simp [hm]
  | cons c rest ih =>
    intro m hm
    simp only [splitChars] at hm
    cases h : splitChars sep rest with
    | nil => exact absurd h (splitChars_ne_nil sep rest)
    | cons x t =>
      rw [h] at hm
      by_cases hc : c = sep
      · simp only [hc, if_true] at hm
        rcases List.mem_cons.mp hm with h1 | h1
        · simp [h1]
        · exact ih m (by rw [h]; exact h1)
      · simp only [hc, if_false] at hm
        rcases List.mem_cons.mp hm with h1 | h1
        · subst h1
          intro hsep
          rcases List.mem_cons.mp hsep with h2 | h2
          · exact hc h2.symm
          · exact ih x (by rw [h]; exact List.mem_cons_self x t) h2
        · exact ih m (by rw [h]; exact List.mem_cons_of_mem x h1)

/-- Splitting a separator-free list yields the singleton. -/
theorem splitChars_noSep (sep : Char) (l : List Char) (h : sep ∉ l) :
    splitChars sep l = [l] := by
  induction l with
  | nil => rfl
  | cons c rest ih =>
    have hc : ¬c = sep := fun hcc => h (by simp [hcc])
    have hrest : sep ∉ rest := fun hr => h (List.mem_cons_of_mem c hr)
    simp [splitChars, ih hrest, hc]

/-- `splitChars` distributes over a separator occurrence. -/
theorem splitChars_append_sep (sep : Char) (x rest : List Char) :
    splitChars sep (x ++ sep :: rest) = splitChars sep x ++ splitChars sep rest := by
  induction x with
  | nil =>
    simp only [List.nil_append, splitChars]
    cases h : splitChars sep rest with
    | nil => exact absurd h (splitChars_ne_nil sep rest)
    | cons u t => simp
  | cons c x' ih =>
    rw [List.cons_append, splitChars_cons, splitChars_cons, ih]
    cases hx : splitChars sep x' with
    | nil => exact absurd hx (splitChars_ne_nil sep x')
    | cons hx0 tx =>
      rw [List.cons_append]
      by_cases hc : c = sep <;> simp [hc]

/-- Splitting after prepending a separator-free run extends the first piece. -/
theorem splitChars_prepend_noSep (sep : Char) (w l : List Char) (hw : sep ∉ w)
    (h0 : List Char) (t : List (List Char)) (hl : splitChars sep l = h0 :: t) :
    splitChars sep (w ++ l) = (w ++ h0) :: t := by
  induction w with
  | nil => simpa using hl
  | cons c w' ih =>
    have hc : ¬c = sep := fun hcc => hw (by simp [hcc])
    have hw' : sep ∉ w' := fun hr => hw (List.mem_cons_of_mem c hr)
    rw [List.cons_append, splitChars_cons, ih hw']
    simp [hc]

/-- The character-level counterpart of `joinList` with a one-character
separator. -/
def joinChars (sep : Char) : List (List Char) → List Char
  | [] => []
  | [x] => x
  | x :: y :: r => x ++ sep :: joinChars sep (y :: r)

/-- `joinList "\n"` computes `joinChars '\n'` on the underlying data. -/
theorem joinList_data (ls : List String) :
    (joinList "\n" ls).data = joinChars '\n' (ls.map String.data) := by
  induction ls with
  | nil => rfl
  | cons x r ih =>
    cases r with
    | nil => rfl
    | cons y r' =>
      simp only [joinList, joinChars, List.map, String.data_append, ih]
      simp

/-- Joining the pieces of a split restores the original list. -/
theorem joinChars_splitChars (sep : Char) (l : List Char) :
    joinChars sep (splitChars sep l) = l := by
  induction l with
  | nil => rfl
  | cons c rest ih =>
    simp only [splitChars]
    cases h : splitChars sep rest with
    | nil => exact absurd h (splitChars_ne_nil sep rest)
    | cons h0 t =>
      rw [h] at ih
      by_cases hc : c = sep
      · subst hc
        simp [joinChars, ih]
      · simp only [hc, if_false]
        cases t with
        | nil => simp only [joinChars] at ih ⊢; simp [ih]
        | cons u t' => simp only [joinChars, List.cons_append] at ih ⊢; simp [ih]

/-- Splitting a join of separator-free pieces restores the pieces. -/
theorem splitChars_joinChars (sep : Char) (ls : List (List Char)) (hne : ls ≠ [])
    (hfree : ∀ m ∈ ls, sep ∉ m) :
    splitChars sep (joinChars sep ls) = ls := by
  induction ls with
  | nil => exact absurd rfl hne
  | cons x r ih =>
    cases r with
    | nil =>
      simp only [joinChars]
      exact splitChars_noSep sep x (hfree x (List.mem_cons_self x []))
    | cons y r' =>
      simp only [joinChars]
      rw [splitChars_append_sep]
      rw [splitChars_noSep sep x (hfree x (List.mem_cons_self x _))]
      rw [ih (by simp) (fun m hm => hfree m (List.mem_cons_of_mem x hm))]
      rfl

/-- `join(split(s)) = s`: re-joining the split lines restores the string. -/
theorem joinLines_splitLines (s : String) : joinLines (splitLines s) = s := by
  apply strEq_of_data
  unfold joinLines splitLines jsSplit
  rw [joinList_data, List.map_map]
  have hcomp : (String.data ∘ fun l => (⟨l⟩ : String)) = id := rfl
  rw [hcomp, List.map_id, joinChars_splitChars]

/-- Character-level form of splitting a join with one distinguished element. -/
theorem splitChars_joinChars_insert (A B : List (List Char)) (x : List Char)
    (hA : ∀ m ∈ A, ('\n' : Char) ∉ m) (hB : ∀ m ∈ B, ('\n' : Char) ∉ m) :
    splitChars '\n' (joinChars '\n' (A ++ x :: B)) = A ++ splitChars '\n' x ++ B := by
  induction A with
  | nil =>
    cases B with
    | nil => simp [joinChars]
    | cons b B' =>
      simp only [List.nil_append, joinChars]
      rw [splitChars_append_sep, splitChars_joinChars '\n' (b :: B') (by simp) hB]
  | cons a A' ihA =>
    have hne : A' ++ x :: B ≠ [] := by simp
    have hjoin : joinChars '\n' (a :: (A' ++ x :: B)) =
        a ++ '\n' :: joinChars '\n' (A' ++ x :: B) := by
      cases h : A' ++ x :: B with
      | nil => exact absurd h hne
      | cons u t => rfl
    rw [List.cons_append, hjoin, splitChars_append_sep,
      splitChars_noSep '\n' a (hA a (List.mem_cons_self a A')),
      ihA (fun m hm => hA m (List.mem_cons_of_mem a hm))]
    simp

/-- Splitting a join with one distinguished element: the newline-free
members around it come back unchanged and the element contributes its own
split. -/
theorem splitLines_join_insert (A B : List String) (x : String)
    (hA : ∀ m ∈ A, ('\n' : Char) ∉ m.data) (hB : ∀ m ∈ B, ('\n' : Char) ∉ m.data) :
    splitLines (joinLines (A ++ x :: B)) = A ++ splitLines x ++ B := by
  unfold joinLines splitLines jsSplit
  rw [joinList_data]
  have hmap : (A ++ x :: B).map String.data =
      A.map String.data ++ x.data :: B.map String.data := by
    simp
  have hAd : ∀ m ∈ A.map String.data, ('\n' : Char) ∉ m := by
    intro m hm
    rcases List.mem_map.mp hm with ⟨st, hst, hstd⟩
    subst hstd
    exact hA st hst
  have hBd : ∀ m ∈ B.map String.data, ('\n' : Char) ∉ m := by
    intro m hm
    rcases List.mem_map.mp hm with ⟨st, hst, hstd⟩
    subst hstd
    exact hB st hst
  rw [hmap, splitChars_joinChars_insert (A.map String.data) (B.map String.data) x.data hAd hBd]
  simp only [List.map_append, List.map_map]
  have hcomp : ((fun l => (⟨l⟩ : String)) ∘ String.data) = id := rfl
  rw [hcomp, List.map_id, List.map_id]

/-- Prepending whitespace cannot create or destroy an occurrence of a
pattern that starts with a non-whitespace character. -/
theorem charsHasSub_ws_prepend (p : Char) (ps w l : List Char)
    (hw : ∀ c ∈ w, c.isWhitespace = true) (hp : p.isWhitespace = false) :
    charsHasSub (p :: ps) (w ++ l) = charsHasSub (p :: ps) l := by
  induction w with
  | nil => rfl
  | cons c w' ih =>
    have hc : c.isWhitespace = true := hw c (List.mem_cons_self c w')
    have hpc : (p = c) = False := by
      simp only [eq_iff_iff, iff_false]
      intro he
      rw [he, hc] at hp
      simp at hp
    simp only [List.cons_append, charsHasSub, charsHasPre, hpc, decide_False,
      Bool.false_and, Bool.false_or]
    exact ih (fun d hd => hw d (List.mem_cons_of_mem c hd))

/-- String-level corollary: `(ind ++ l).includes(pat) = l.includes(pat)` when
`ind` is whitespace and `pat` starts with a non-whitespace character. -/
theorem strIncludes_ws_prepend (ind l pat : String) (p : Char) (ps : List Char)
    (hw : ∀ c ∈ ind.data, c.isWhitespace = true) (hpat : pat.data = p :: ps)
    (hp : p.isWhitespace = false) :
    strIncludes (ind ++ l) pat = strIncludes l pat := by
  unfold strIncludes
  rw [String.data_append, hpat]
  exact charsHasSub_ws_prepend p ps ind.data l.data hw hp

/-! ## Lemmas about the removal machine -/

/-- `removeRun` distributes over list append, threading its state. -/
theorem removeRun_append (m : String) (A B : List String) (s : Bool) (d : Int) :
    Part002.removeRun m (A ++ B) s d =
      ((Part002.removeRun m A s d).1 ++
          (Part002.removeRun m B (Part002.removeRun m A s d).2.1
            (Part002.removeRun m A s d).2.2).1,
        (Part002.removeRun m B (Part002.removeRun m A s d).2.1
          (Part002.removeRun m A s d).2.2).2) := by
  induction A generalizing s d with
  | nil => simp [Part002.removeRun]
  | cons l A' ih =>
    rw [List.cons_append]
    simp only [Part002.removeRun]
    split_ifs <;> simp [ih]

/-- Lines free of the marker pass through the removal loop untouched when it
is not skipping. -/
theorem removeRun_keepAll (m : String) (ls : List String) (d : Int)
    (h : ∀ l ∈ ls, strIncludes l m = false) :
    Part002.removeRun m ls false d = (ls, false, d) := by
  induction ls with
  | nil => rfl
  | cons l ls' ih =>
    have hl : strIncludes l m = false := h l (List.mem_cons_self l ls')
    simp only [Part002.removeRun, hl]
    simp [ih (fun x hx => h x (List.mem_cons_of_mem l hx))]

/-- Shared core of C3 and C1: removing a marker that occurs on no line
returns the source unchanged. -/
theorem remove_marker_absent (src t : String)
    (h : ∀ l ∈ splitLines src, strIncludes l (Part002.attrMarker t) = false) :
    Part002.removeComponentFromApp src t = src := by
  unfold Part002.removeComponentFromApp
  rw [removeRun_keepAll (Part002.attrMarker t) (splitLines src) 0 h]
  exact joinLines_splitLines src

/-! ## C3 -/

/-- C3 amended: for every source and every target tag occurring on no line
of it, `removeComponentFromApp` returns the source unchanged — but it emits
no "not found" signal: its only output is the string, indistinguishable from
a successful removal, and the caller logs success unconditionally. -/
theorem c3_remove_unchanged_amended (src t : String)
    (h : ∀ l ∈ splitLines src, strIncludes l (Part002.attrMarker t) = false) :
    Part002.removeComponentFromApp src t = src :=
  remove_marker_absent src t h

/-- C3 witness: removing the absent tag `does-not-exist` from the concrete
container source leaves it unchanged. -/
theorem c3_remove_unchanged_witness :
    Part002.removeComponentFromApp srcContainer "does-not-exist" = srcContainer :=
  c3_remove_unchanged_amended srcContainer "does-not-exist" (by decide)

/-! ## Indentation produced by the insertion-point search -/

/-- Every line produced by `splitLines` is newline-free. -/
theorem splitLines_mem_nl (s : String) : ∀ l ∈ splitLines s, ('\n' : Char) ∉ l.data := by
  intro l hl
  unfold splitLines jsSplit at hl
  rcases List.mem_map.mp hl with ⟨m, hm, hml⟩
  subst hml
  exact splitChars_mem_not_sep '\n' s.data m hm

/-- The leading whitespace of a string is whitespace. -/
theorem leadingWS_ws (s : String) : ∀ c ∈ (leadingWS s).data, c.isWhitespace = true := by
  intro c hc
  exact List.mem_takeWhile_imp hc

/-- The leading whitespace of a newline-free line is newline-free. -/
theorem leadingWS_nl (s : String) (h : ('\n' : Char) ∉ s.data) :
    ('\n' : Char) ∉ (leadingWS s).data := by
  intro hc
  exact h ((List.takeWhile_sublist _).subset hc)

/-- An indentation string acceptable for the C1 argument: all-whitespace and
newline-free. -/
def GoodIndent (ind : String) : Prop :=
  (∀ c ∈ ind.data, c.isWhitespace = true) ∧ ('\n' : Char) ∉ ind.data

/-- The ten-space default indentation is good. -/
theorem goodIndent_default : GoodIndent "          " := by
  constructor
  · decide
  · decide

/-- The leading whitespace of a newline-free line is a good indentation. -/
theorem goodIndent_leadingWS (l : String) (h : ('\n' : Char) ∉ l.data) :
    GoodIndent (leadingWS l) :=
  ⟨leadingWS_ws l, leadingWS_nl l h⟩

/-- Phase 1 returns the leading whitespace of one of the lines. -/
theorem findSelLine_ind (marker : String) (ls : List String) (i k : Nat) (ind : String)
    (h : Part002.findSelLine marker ls i = some (k, ind)) :
    ∃ l ∈ ls, ind = leadingWS l := by
  induction ls generalizing i with
  | nil => simp [Part002.findSelLine] at h
  | cons l rest ih =>
    simp only [Part002.findSelLine] at h
    by_cases hm : strIncludes l marker
    · rw [if_pos hm] at h
      injection h with h1
      injection h1 with _ h2
      exact ⟨l, List.mem_cons_self l rest, h2.symm⟩
    · rw [if_neg hm] at h
      rcases ih (i + 1) h with ⟨l', hl', hind⟩
      exact ⟨l', List.mem_cons_of_mem l hl', hind⟩

/-- The container depth scan returns either the default indentation or the
leading whitespace of a line drawn from its pool. -/
theorem scanClose_ind (pool : List String) (ls : List String) (j : Nat)
    (prev : Option String) (d : Int) (f : Bool) (k : Nat) (ind : String)
    (hprev : ∀ p, prev = some p → p ∈ pool) (hls : ∀ l ∈ ls, l ∈ pool)
    (h : Part002.scanClose ls j prev d f = some (k, ind)) :
    ind = "          " ∨ ∃ l ∈ pool, ind = leadingWS l := by
  induction ls generalizing j prev d f with
  | nil => simp [Part002.scanClose] at h
  | cons l rest ih =>
    simp only [Part002.scanClose] at h
    by_cases hdec : Part002.decL l
    · rw [if_pos hdec] at h
      by_cases hhit :
          ((if Part002.incL l then true else f) &&
            ((if Part002.incL l then d + 1 else d) - 1 == 0)) = true
      · rw [if_pos hhit] at h
        injection h with h1
        injection h1 with _ h2
        cases hp : prev with
        | none =>
          left
          rw [hp] at h2
          exact h2.symm
        | some p =>
          right
          rw [hp] at h2
          exact ⟨p, hprev p hp, h2.symm⟩
      · rw [if_neg hhit] at h
        exact ih (j + 1) (some l)
          ((if Part002.incL l then d + 1 else d) - 1)
          (if Part002.incL l then true else f)
          (fun p hp => by injection hp with hp'; exact hp' ▸ hls l (List.mem_cons_self l rest))
          (fun x hx => hls x (List.mem_cons_of_mem l hx)) h
    · rw [if_neg hdec] at h
      exact ih (j + 1) (some l)
        (if Part002.incL l then d + 1 else d)
        (if Part002.incL l then true else f)
        (fun p hp => by injection hp with hp'; exact hp' ▸ hls l (List.mem_cons_self l rest))
        (fun x hx => hls x (List.mem_cons_of_mem l hx)) h

/-- Phase 2 returns either the default indentation or the leading whitespace
of a line drawn from its pool. -/
theorem findAnchorIns_ind (pool : List String) (ls : List String) (i : Nat)
    (prev : Option String) (k : Nat) (ind : String)
    (hprev : ∀ p, prev = some p → p ∈ pool) (hls : ∀ l ∈ ls, l ∈ pool)
    (h : Part002.findAnchorIns ls i prev = some (k, ind)) :
    ind = "          " ∨ ∃ l ∈ pool, ind = leadingWS l := by
  induction ls generalizing i prev with
  | nil => simp [Part002.findAnchorIns] at h
  | cons l rest ih =>
    simp only [Part002.findAnchorIns] at h
    by_cases ha : (strIncludes l (Part002.attrMarker "actions") ||
        strIncludes l (Part002.attrMarker "container")) = true
    · rw [if_pos ha] at h
      cases hs : Part002.scanClose (l :: rest) i prev 0 false with
      | none =>
        rw [hs] at h
        exact ih (i + 1) (some l)
          (fun p hp => by injection hp with hp'; exact hp' ▸ hls l (List.mem_cons_self l rest))
          (fun x hx => hls x (List.mem_cons_of_mem l hx)) h
      | some ji =>
        obtain ⟨j1, ind1⟩ := ji
        rw [hs] at h
        dsimp only at h
        by_cases hz : j1 = 0
        · rw [if_pos hz] at h
          exact ih (i + 1) (some l)
            (fun p hp => by injection hp with hp'; exact hp' ▸ hls l (List.mem_cons_self l rest))
            (fun x hx => hls x (List.mem_cons_of_mem l hx)) h
        · rw [if_neg hz] at h
          injection h with h1
          have hind : ind = ind1 := by
            have := congrArg Prod.snd h1
            simpa using this.symm
          subst hind
          exact scanClose_ind pool (l :: rest) i prev 0 false j1 ind hprev hls hs
    · rw [if_neg ha] at h
      exact ih (i + 1) (some l)
        (fun p hp => by injection hp with hp'; exact hp' ▸ hls l (List.mem_cons_self l rest))
        (fun x hx => hls x (List.mem_cons_of_mem l hx)) h

/-- The insertion-point search always yields a good indentation. -/
theorem insertionPoint_good (src : String) (sel : Option String) (k : Nat) (ind : String)
    (h : Part002.insertionPoint (splitLines src) sel = some (k, ind)) :
    GoodIndent ind := by
  unfold Part002.insertionPoint at h
  have fromLine : ∀ l, l ∈ splitLines src → ind = leadingWS l → GoodIndent ind := by
    intro l hl hind
    subst hind
    exact goodIndent_leadingWS l (splitLines_mem_nl src l hl)
  cases hsel : sel with
  | none =>
    rw [hsel] at h
    dsimp only at h
    cases hfa : Part002.findAnchorIns (splitLines src) 0 none with
    | some ki =>
      rw [hfa] at h
      injection h with h1
      have hind : ind = ki.2 := by
        have := congrArg Prod.snd h1
        simpa using this.symm
      subst hind
      rcases findAnchorIns_ind (splitLines src) (splitLines src) 0 none ki.1 ki.2
          (fun p hp => by cases hp) (fun x hx => hx) (by rw [hfa]) with hdef | ⟨l, hl, hind⟩
      · rw [hdef]; exact goodIndent_default
      · exact fromLine l hl hind
    | none =>
      rw [hfa] at h
      cases hlc : Part002.lastCloseDivIdx (splitLines src) 0 with
      | none => rw [hlc] at h; simp at h
      | some i =>
        rw [hlc] at h
        simp only [Option.map_some'] at h
        injection h with h1
        have hind : ind = "          " := by
          have := congrArg Prod.snd h1
          simpa using this.symm
        rw [hind]; exact goodIndent_default
  | some a =>
    rw [hsel] at h
    dsimp only at h
    by_cases ha : a = ""
    · rw [ha] at h
      simp only [if_pos rfl] at h
      cases hfa : Part002.findAnchorIns (splitLines src) 0 none with
      | some ki =>
        rw [hfa] at h
        injection h with h1
        have hind : ind = ki.2 := by
          have := congrArg Prod.snd h1
          simpa using this.symm
        subst hind
        rcases findAnchorIns_ind (splitLines src) (splitLines src) 0 none ki.1 ki.2
            (fun p hp => by cases hp) (fun x hx => hx) (by rw [hfa]) with hdef | ⟨l, hl, hind⟩
        · rw [hdef]; exact goodIndent_default
        · exact fromLine l hl hind
      | none =>
        rw [hfa] at h
        cases hlc : Part002.lastCloseDivIdx (splitLines src) 0 with
        | none => rw [hlc] at h; simp at h
        | some i =>
          rw [hlc] at h
          simp only [Option.map_some'] at h
          injection h with h1
          have hind : ind = "          " := by
            have := congrArg Prod.snd h1
            simpa using this.symm
          rw [hind]; exact goodIndent_default
    · rw [if_neg ha] at h
      cases hfs : Part002.findSelLine (Part002.attrMarker a) (splitLines src) 0 with
      | some ki =>
        rw [hfs] at h
        injection h with h1
        have hind : ind = ki.2 := by
          have := congrArg Prod.snd h1
          simpa using this.symm
        subst hind
        rcases findSelLine_ind (Part002.attrMarker a) (splitLines src) 0 ki.1 ki.2 hfs with
          ⟨l, hl, hind⟩
        exact fromLine l hl hind
      | none =>
        rw [hfs] at h
        cases hfa : Part002.findAnchorIns (splitLines src) 0 none with
        | some ki =>
          rw [hfa] at h
          injection h with h1
          have hind : ind = ki.2 := by
            have := congrArg Prod.snd h1
            simpa using this.symm
          subst hind
          rcases findAnchorIns_ind (splitLines src) (splitLines src) 0 none ki.1 ki.2
              (fun p hp => by cases hp) (fun x hx => hx) (by rw [hfa]) with hdef | ⟨l, hl, hind⟩
          · rw [hdef]; exact goodIndent_default
          · exact fromLine l hl hind
        | none =>
          rw [hfa] at h
          cases hlc : Part002.lastCloseDivIdx (splitLines src) 0 with
          | none => rw [hlc] at h; simp at h
          | some i =>
            rw [hlc] at h
            simp only [Option.map_some'] at h
            injection h with h1
            have hind : ind = "          " := by
              have := congrArg Prod.snd h1
              simpa using this.symm
            rw [hind]; exact goodIndent_default

/-! ## C1: delete undoes insert, amended -/

/-- The attribute marker starts with the non-whitespace character `d`. -/
theorem attrMarker_data (t : String) :
    (Part002.attrMarker t).data =
      'd' :: (("ata-webstudio-element=\"" : String).data ++ t.data ++ ("\"" : String).data) := by
  unfold Part002.attrMarker
  rw [String.data_append, String.data_append]
  have hd : ("data-webstudio-element=\"" : String).data =
      'd' :: ("ata-webstudio-element=\"" : String).data := rfl
  rw [hd]
  simp

/-- `splitLines` never returns the empty list. -/
theorem splitLines_ne_nil (s : String) : splitLines s ≠ [] := by
  unfold splitLines jsSplit
  intro h
  exact splitChars_ne_nil '\n' s.data (List.map_eq_nil_iff.mp h)

/-- Prepending a newline-free indent to a string extends its first line. -/
theorem splitLines_append_head (ind F : String) (hind : ('\n' : Char) ∉ ind.data)
    (F0 : String) (Frest : List String) (hF : splitLines F = F0 :: Frest) :
    splitLines (ind ++ F) = (ind ++ F0) :: Frest := by
  have hdataF : splitChars '\n' F.data = F0.data :: Frest.map String.data := by
    have := congrArg (List.map String.data) hF
    simp only [splitLines, jsSplit, List.map_map] at this
    have hcomp : (String.data ∘ fun l => (⟨l⟩ : String)) = id := rfl
    rw [hcomp, List.map_id] at this
    simpa using this
  unfold splitLines jsSplit
  rw [String.data_append,
    splitChars_prepend_noSep '\n' ind.data F.data hind F0.data (Frest.map String.data) hdataF]
  simp only [List.map_cons, List.map_map]
  have hcomp : ((fun l => (⟨l⟩ : String)) ∘ String.data) = id := rfl
  rw [hcomp, List.map_id]
  have : (⟨ind.data ++ F0.data⟩ : String) = ind ++ F0 := by
    apply strEq_of_data
    rw [String.data_append]
  rw [this]

/-- One step of the removal loop ignores a whitespace indent prepended to a
line that carries the marker. -/
theorem removeRun_indent_head (m : String) (p : Char) (ps : List Char)
    (hpat : m.data = p :: ps) (hp : p.isWhitespace = false)
    (ind f0 : String) (hw : ∀ c ∈ ind.data, c.isWhitespace = true)
    (hmark : strIncludes f0 m = true) (rest : List String) (s : Bool) (d : Int) :
    Part002.removeRun m ((ind ++ f0) :: rest) s d = Part002.removeRun m (f0 :: rest) s d := by
  have e1 : strIncludes (ind ++ f0) m = strIncludes f0 m :=
    strIncludes_ws_prepend ind f0 m p ps hw hpat hp
  have e2 : strIncludes (ind ++ f0) "/>" = strIncludes f0 "/>" :=
    strIncludes_ws_prepend ind f0 "/>" '/' ['>'] hw rfl (by decide)
  have e3 : strIncludes (ind ++ f0) "<" = strIncludes f0 "<" :=
    strIncludes_ws_prepend ind f0 "<" '<' [] hw rfl (by decide)
  have e4 : strIncludes (ind ++ f0) "</" = strIncludes f0 "</" :=
    strIncludes_ws_prepend ind f0 "</" '<' ['/'] hw rfl (by decide)
  simp only [Part002.removeRun, e1, e2, e3, e4, hmark, if_true]

/-- C1 amended: delete undoes insert for every fragment whose line list the
removal machine consumes exactly (kept lines empty, skip flag back off) —
which covers a single self-closing line and any multi-line fragment whose
lines never combine an opening tag and a closing tag — inserted anywhere
into a source whose lines do not already carry the fragment's tag. -/
theorem c1_remove_undoes_insert_amended (src F t : String) (sel : Option String)
    (h1 : ∀ l ∈ splitLines src, strIncludes l (Part002.attrMarker t) = false)
    (h2 : ∃ dEnd, Part002.removeRun (Part002.attrMarker t) (splitLines F) false 0 =
      ([], false, dEnd)) :
    Part002.removeComponentFromApp (Part002.addComponentToExistingApp src F sel) t = src := by
  obtain ⟨dEnd, h2⟩ := h2
  obtain ⟨F0, Frest, hsplitF⟩ : ∃ F0 Frest, splitLines F = F0 :: Frest := by
    cases hs : splitLines F with
    | nil => exact absurd hs (splitLines_ne_nil F)
    | cons a b => exact ⟨a, b, rfl⟩
  rw [hsplitF] at h2
  have hmarkF0 : strIncludes F0 (Part002.attrMarker t) = true := by
    cases hb : strIncludes F0 (Part002.attrMarker t) with
    | true => rfl
    | false =>
      simp only [Part002.removeRun, hb] at h2
      simp at h2
  unfold Part002.addComponentToExistingApp
  cases hip : Part002.insertionPoint (splitLines src) sel with
  | none =>
    simp only [hip]
    exact remove_marker_absent src t h1
  | some ki =>
    obtain ⟨k, ind⟩ := ki
    simp only [hip]
    obtain ⟨hindws, hindnl⟩ := insertionPoint_good src sel k ind hip
    have hL1 : ∀ m' ∈ (splitLines src).take k, ('\n' : Char) ∉ m'.data :=
      fun m' hm' => splitLines_mem_nl src m' (List.take_subset k _ hm')
    have hL2 : ∀ m' ∈ (splitLines src).drop k, ('\n' : Char) ∉ m'.data :=
      fun m' hm' => splitLines_mem_nl src m' (List.drop_subset k _ hm')
    unfold Part002.removeComponentFromApp
    rw [splitLines_join_insert _ _ _ hL1 hL2,
      splitLines_append_head ind F hindnl F0 Frest hsplitF]
    have hL1mark : ∀ l ∈ (splitLines src).take k,
        strIncludes l (Part002.attrMarker t) = false :=
      fun l hl => h1 l (List.take_subset k _ hl)
    have hL2mark : ∀ l ∈ (splitLines src).drop k,
        strIncludes l (Part002.attrMarker t) = false :=
      fun l hl => h1 l (List.drop_subset k _ hl)
    rw [List.append_assoc]
    rw [removeRun_append _ ((splitLines src).take k) _ false 0]
    rw [removeRun_keepAll _ _ 0 hL1mark]
    have hstep : Part002.removeRun (Part002.attrMarker t)
        (((ind ++ F0) :: Frest) ++ (splitLines src).drop k) false 0 =
        Part002.removeRun (Part002.attrMarker t)
          ((F0 :: Frest) ++ (splitLines src).drop k) false 0 := by
      rw [List.cons_append, List.cons_append]
      exact removeRun_indent_head (Part002.attrMarker t) 'd' _ (attrMarker_data t)
        (by decide) ind F0 hindws hmarkF0 _ false 0
    rw [hstep, removeRun_append _ (F0 :: Frest) _ false 0, h2]
    rw [removeRun_keepAll _ _ dEnd hL2mark]
    simp only [List.nil_append]
    rw [List.take_append_drop]
    exact joinLines_splitLines src

/-- C1 witness: a self-closing one-line fragment inserted into the concrete
container source and removed again restores the source. -/
theorem c1_remove_undoes_insert_witness :
    Part002.removeComponentFromApp
      (Part002.addComponentToExistingApp srcContainer
        "<img data-webstudio-element=\"img-1\" />" none) "img-1" = srcContainer :=
  c1_remove_undoes_insert_amended srcContainer
    "<img data-webstudio-element=\"img-1\" />" "img-1" none (by decide) ⟨0, by decide⟩

/-! ## C2: depth-balanced container scan, amended -/

/-- The net depth change the scan applies for one line: `+1` for an
unmatched-opening line, `-1` for any line containing `</`, `0` otherwise. -/
def lineDelta (l : String) : Int :=
  if Part002.incL l then 1 else if Part002.decL l then -1 else 0

/-- The net depth change over a run of lines. -/
def sumDelta : List String → Int
  | [] => 0
  | l :: r => lineDelta l + sumDelta r

/-- Splitting the join of a non-empty list of newline-free lines restores
the lines. -/
theorem splitLines_joinLines (ls : List String) (hne : ls ≠ [])
    (hfree : ∀ m ∈ ls, ('\n' : Char) ∉ m.data) : splitLines (joinLines ls) = ls := by
  unfold joinLines splitLines jsSplit
  rw [joinList_data, splitChars_joinChars '\n' (ls.map String.data)
      (by simpa using hne)
      (by
        intro m hm
        rcases List.mem_map.mp hm with ⟨st, hst, hstd⟩
        subst hstd
        exact hfree st hst)]
  rw [List.map_map]
  have hcomp : ((fun l => (⟨l⟩ : String)) ∘ String.data) = id := rfl
  rw [hcomp, List.map_id]

/-- An unmatched-opening line contains no `</`. -/
theorem incL_not_decL (l : String) (h : Part002.incL l = true) :
    Part002.decL l = false := by
  unfold Part002.incL at h
  unfold Part002.decL
  rcases Bool.and_eq_true_iff.mp h with ⟨h1, _⟩
  rcases Bool.and_eq_true_iff.mp h1 with ⟨_, h3⟩
  simpa using h3

/-- The depth scan over a balanced body: starting at depth `d ≥ 1` with the
opening already found, a body whose running depth never returns to zero on a
closing line and whose total change brings the depth to exactly 1 at the
closing line makes the scan stop exactly at the closing line, taking its
indentation from the line just above. -/
theorem scanClose_balanced (body : List String) (close : String) (rest : List String)
    (j : Nat) (prevS : String) (d : Int)
    (hclose : Part002.decL close = true)
    (hbal : d + sumDelta body = 1)
    (hpos : ∀ i (hi : i < body.length), Part002.decL (body.get ⟨i, hi⟩) = true →
      1 ≤ d + sumDelta (body.take (i + 1))) :
    Part002.scanClose (body ++ close :: rest) j (some prevS) d true =
      some (j + body.length, leadingWS (body.getLastD prevS)) := by
  induction body generalizing j prevS d with
  | nil =>
    have hd1 : d = 1 := by
      simp only [sumDelta] at hbal
      omega
    subst hd1
    have hinc : Part002.incL close = false := by
      cases hb : Part002.incL close with
      | false => rfl
      | true => rw [incL_not_decL close hb] at hclose; cases hclose
    simp only [List.nil_append, Part002.scanClose, hinc, hclose, if_false, if_true,
      Part002.indentOfPrev]
    norm_num
  | cons b bs ih =>
    rw [List.cons_append]
    have harith : ∀ n : Nat, j + 1 + n = j + (n + 1) := fun n => by omega
    by_cases hbinc : Part002.incL b = true
    · have hbdec : Part002.decL b = false := incL_not_decL b hbinc
      have hδ : lineDelta b = 1 := by simp [lineDelta, hbinc]
      have hbal' : (d + 1) + sumDelta bs = 1 := by
        simp only [sumDelta, hδ] at hbal ⊢
        omega
      have hpos' : ∀ i (hi : i < bs.length), Part002.decL (bs.get ⟨i, hi⟩) = true →
          1 ≤ (d + 1) + sumDelta (bs.take (i + 1)) := by
        intro i hi hdec
        have := hpos (i + 1) (by simpa using Nat.succ_lt_succ hi) (by simpa using hdec)
        simp only [List.take_succ_cons, sumDelta, hδ] at this
        omega
      have hstep : Part002.scanClose (b :: (bs ++ close :: rest)) j (some prevS) d true =
          Part002.scanClose (bs ++ close :: rest) (j + 1) (some b) (d + 1) true := by
        simp [Part002.scanClose, hbinc, hbdec]
      rw [hstep, ih (j + 1) b (d + 1) hbal' hpos', List.getLastD_cons, List.length_cons,
        harith bs.length]
    · have hbinc' : Part002.incL b = false := by
        cases hb : Part002.incL b with
        | false => rfl
        | true => exact absurd hb hbinc
      by_cases hbdec : Part002.decL b = true
      · have hδ : lineDelta b = -1 := by simp [lineDelta, hbinc', hbdec]
        have hge2 : 2 ≤ d := by
          have := hpos 0 (by simp) (by simpa using hbdec)
          simp only [List.take_succ_cons, List.take_zero, sumDelta, hδ] at this
          omega
        have hne0 : ((d - 1 : Int) == 0) = false := by
          have hne : (d - 1 : Int) ≠ 0 := by omega
          simpa using hne
        have hbal' : (d - 1) + sumDelta bs = 1 := by
          simp only [sumDelta, hδ] at hbal ⊢
          omega
        have hpos' : ∀ i (hi : i < bs.length), Part002.decL (bs.get ⟨i, hi⟩) = true →
            1 ≤ (d - 1) + sumDelta (bs.take (i + 1)) := by
          intro i hi hdec
          have := hpos (i + 1) (by simpa using Nat.succ_lt_succ hi) (by simpa using hdec)
          simp only [List.take_succ_cons, sumDelta, hδ] at this
          omega
        have hstep : Part002.scanClose (b :: (bs ++ close :: rest)) j (some prevS) d true =
            Part002.scanClose (bs ++ close :: rest) (j + 1) (some b) (d - 1) true := by
          simp [Part002.scanClose, hbinc', hbdec, hne0]
        rw [hstep, ih (j + 1) b (d - 1) hbal' hpos', List.getLastD_cons, List.length_cons,
          harith bs.length]
      · have hbdec' : Part002.decL b = false := by
          cases hb : Part002.decL b with
          | false => rfl
          | true => exact absurd hb hbdec
        have hδ : lineDelta b = 0 := by simp [lineDelta, hbinc', hbdec']
        have hbal' : d + sumDelta bs = 1 := by
          simp only [sumDelta, hδ] at hbal ⊢
          omega
        have hpos' : ∀ i (hi : i < bs.length), Part002.decL (bs.get ⟨i, hi⟩) = true →
            1 ≤ d + sumDelta (bs.take (i + 1)) := by
          intro i hi hdec
          have := hpos (i + 1) (by simpa using Nat.succ_lt_succ hi) (by simpa using hdec)
          simp only [List.take_succ_cons, sumDelta, hδ] at this
          omega
        have hstep : Part002.scanClose (b :: (bs ++ close :: rest)) j (some prevS) d true =
            Part002.scanClose (bs ++ close :: rest) (j + 1) (some b) d true := by
          simp [Part002.scanClose, hbinc', hbdec']
        rw [hstep, ih (j + 1) b d hbal' hpos', List.getLastD_cons, List.length_cons,
          harith bs.length]

/-- C2 amended: when the container's content lines drive the line-based depth
counter (unmatched-opening lines +1, any `</` line −1) back to exactly zero
at the closing line without touching zero on the way, the scan does locate
the container's own closing line — but the fragment is spliced at
`insertionLine = j − 1`, one line above it: immediately before the
container's *last content line* (with that line's indentation), not
immediately before the container's closing tag; with nested same-tag
children that last content line is an inner child's closing tag. -/
theorem c2_splice_above_closing_amended (C bLast close frag : String) (bs : List String)
    (hC : strIncludes C (Part002.attrMarker "container") = true)
    (hCinc : Part002.incL C = true)
    (hclose : Part002.decL close = true)
    (hnl : ∀ l ∈ (C :: (bs ++ [bLast])) ++ [close], ('\n' : Char) ∉ l.data)
    (hbal : sumDelta (bs ++ [bLast]) = 0)
    (hpos : ∀ i (hi : i < (bs ++ [bLast]).length),
      Part002.decL ((bs ++ [bLast]).get ⟨i, hi⟩) = true →
        1 ≤ 1 + sumDelta ((bs ++ [bLast]).take (i + 1))) :
    Part002.addComponentToExistingApp (joinLines ((C :: (bs ++ [bLast])) ++ [close])) frag none =
      joinLines ((C :: bs) ++ (leadingWS bLast ++ frag) :: [bLast, close]) := by
  have hlines : splitLines (joinLines ((C :: (bs ++ [bLast])) ++ [close])) =
      (C :: (bs ++ [bLast])) ++ [close] :=
    splitLines_joinLines _ (by simp) hnl
  have hCdec : Part002.decL C = false := incL_not_decL C hCinc
  have hscan : Part002.scanClose ((C :: (bs ++ [bLast])) ++ [close]) 0 none 0 false =
      some (1 + (bs ++ [bLast]).length, leadingWS bLast) := by
    have hstep : Part002.scanClose (C :: ((bs ++ [bLast]) ++ [close])) 0 none 0 false =
        Part002.scanClose ((bs ++ [bLast]) ++ [close]) 1 (some C) 1 true := by
      simp [Part002.scanClose, hCinc, hCdec]
    rw [List.cons_append, hstep]
    have hb := scanClose_balanced (bs ++ [bLast]) close [] 1 C 1 hclose
      (by rw [hbal]; norm_num) hpos
    rw [show ((bs ++ [bLast]) ++ [close] : List String) = (bs ++ [bLast]) ++ close :: [] by rfl,
      hb, List.getLastD_concat]
  have hscan' : Part002.scanClose (C :: ((bs ++ [bLast]) ++ [close])) 0 none 0 false =
      some (1 + (bs ++ [bLast]).length, leadingWS bLast) := by
    rw [← List.cons_append]
    exact hscan
  have hanchor : Part002.findAnchorIns ((C :: (bs ++ [bLast])) ++ [close]) 0 none =
      some ((bs ++ [bLast]).length, leadingWS bLast) := by
    rw [List.cons_append]
    simp only [Part002.findAnchorIns]
    have ha : (strIncludes C (Part002.attrMarker "actions") ||
        strIncludes C (Part002.attrMarker "container")) = true := by
      rw [hC]
      simp
    rw [if_pos ha, hscan']
    have hz : ¬(1 + (bs ++ [bLast]).length = 0) := by omega
    simp only [hz, if_false]
    congr 1
    congr 1
    omega
  have hip : Part002.insertionPoint ((C :: (bs ++ [bLast])) ++ [close]) none =
      some ((bs ++ [bLast]).length, leadingWS bLast) := by
    unfold Part002.insertionPoint
    dsimp only
    rw [hanchor]
  have hlen : (C :: bs).length = (bs ++ [bLast]).length := by simp
  have hsplitform : ((C :: (bs ++ [bLast])) ++ [close] : List String) =
      (C :: bs) ++ ([bLast] ++ [close]) := by simp
  unfold Part002.addComponentToExistingApp
  simp only [hlines, hip]
  rw [hsplitform, List.take_left' hlen, List.drop_left' hlen]
  rfl

/-- C2 witness: the nested-div container; the fragment lands immediately
before the inner `  </div>`, with the inner closing line's indentation. -/
theorem c2_splice_above_closing_witness :
    Part002.addComponentToExistingApp
        (joinLines (("<div data-webstudio-element=\"container\">" ::
          (["  <div>", "    x"] ++ ["  </div>"])) ++ ["</div>"])) "FRAG" none =
      joinLines (("<div data-webstudio-element=\"container\">" :: ["  <div>", "    x"]) ++
        (leadingWS "  </div>" ++ "FRAG") :: ["  </div>", "</div>"]) :=
  c2_splice_above_closing_amended "<div data-webstudio-element=\"container\">" "  </div>"
    "</div>" "FRAG" ["  <div>", "    x"] (by decide) (by decide) (by decide) (by decide)
    (by decide) (by decide)

/-! ## C5: void-tag self-closing, amended (part_005 generator) -/

/-- Does the child list contain a tagged element child? -/
def hasTaggedElemChild : DomList → Bool
  | .nil => false
  | .cons c rest => c.isTaggedElem || hasTaggedElemChild rest

/-- With no tagged element child, the generator collects no child JSX. -/
theorem genChildren_nil : ∀ (cs : DomList) (ind : Nat),
    hasTaggedElemChild cs = false → Part005.genChildren cs ind = []
  | .nil, _, _ => rfl
  | .cons c rest, ind, h => by
    rcases Bool.or_eq_false_iff.mp h with ⟨h1, h2⟩
    simp only [Part005.genChildren, h1, if_false, Bool.false_eq_true, List.nil_append]
    exact genChildren_nil rest ind h2

/-- A string of the shape `Z ++ T ++ ['>']` with `T` a nonempty tag name
free of `/` does not end in `/>`. -/
theorem no_slash_suffix (Z T : List Char) (hT : T ≠ []) (hs : ('/' : Char) ∉ T) :
    ¬ (['/', '>'] <:+ Z ++ (T ++ ['>'])) := by
  rintro ⟨u, hu⟩
  have hrev := congrArg List.reverse hu
  simp only [List.reverse_append, List.reverse_cons, List.reverse_nil, List.nil_append,
    List.cons_append, List.append_assoc] at hrev
  cases hTr : T.reverse with
  | nil =>
    apply hT
    have := congrArg List.reverse hTr
    simpa using this
  | cons c r =>
    rw [hTr] at hrev
    have h2 : '/' :: u.reverse = c :: (r ++ Z.reverse) := by
      injection hrev with h1 h2x
    have hc : ('/' : Char) = c := by
      injection h2 with h3 h4
    apply hs
    rw [hc]
    exact List.mem_reverse.mp (hTr ▸ List.mem_cons_self c r)

/-- Any string extended with `" />"` ends in `/>`. -/
theorem suffix_slash_gt (Y : String) : ['/', '>'] <:+ (Y ++ " />").data := by
  refine ⟨Y.data ++ [' '], ?_⟩
  rw [String.data_append]
  have hd : (" />" : String).data = [' ', '/', '>'] := rfl
  rw [hd]
  simp

/-- A string of the shape `Y ++ tag ++ ">"` with a nonempty slash-free tag
does not end in `/>`. -/
theorem not_suffix_slash_gt (Y tag2 : String) (htag : tag2.data ≠ [])
    (hs : ('/' : Char) ∉ tag2.data) : ¬ (['/', '>'] <:+ ((Y ++ tag2) ++ ">").data) := by
  intro h
  have hd : (">" : String).data = ['>'] := rfl
  rw [String.data_append, String.data_append, hd] at h
  refine no_slash_suffix Y.data tag2.data htag hs ?_
  simpa [List.append_assoc] using h

/-- C5 amended (part_005 generator): an element with no tagged children and
no direct text is emitted ending in `/>` exactly when its tag is in the void
set `img, input, br, hr`; otherwise it ends in an explicit `</tag>`. -/
theorem c5_void_self_closing_amended (tag : String) (attrs : List (String × String))
    (cs : DomList) (ind : Nat)
    (hchild : hasTaggedElemChild cs = false)
    (htext : Part005.getDirectTextContent cs = "")
    (htag : tag.data ≠ []) (hslash : ('/' : Char) ∉ tag.data) :
    (['/', '>'] <:+ (Part005.generateJSXFromDOM (.elem tag attrs cs) ind).data) ↔
      Part005.voidTags.contains tag = true := by
  have hcj := genChildren_nil cs (ind + 2) hchild
  have htc : (("" != "") && (jsTrim "" != "")) = false := rfl
  by_cases hv : Part005.voidTags.contains tag = true
  · simp only [Part005.generateJSXFromDOM, hcj, htext, List.length_nil, gt_iff_lt,
      lt_self_iff_false, if_false, htc, Bool.false_eq_true, hv, if_true]
    constructor
    · intro _
      trivial
    · intro _
      exact suffix_slash_gt _
  · have hv' : Part005.voidTags.contains tag = false := by
      cases hb : Part005.voidTags.contains tag with
      | false => rfl
      | true => exact absurd hb hv
    simp only [Part005.generateJSXFromDOM, hcj, htext, List.length_nil, gt_iff_lt,
      lt_self_iff_false, if_false, htc, Bool.false_eq_true, hv', iff_false]
    exact not_suffix_slash_gt _ tag htag hslash

/-- C5 witness: the part_005 generator emits an empty `img` self-closing and
an empty `div` with an explicit closing tag. -/
theorem c5_void_self_closing_witness :
    (['/', '>'] <:+ (Part005.generateJSXFromDOM
        (.elem "img" [("data-webstudio-element", "i1")] .nil) 4).data) ∧
    ¬ (['/', '>'] <:+ (Part005.generateJSXFromDOM
        (.elem "div" [("data-webstudio-element", "empty-1")] .nil) 4).data) := by
  constructor
  · exact (c5_void_self_closing_amended "img" [("data-webstudio-element", "i1")] .nil 4
      rfl rfl (by decide) (by decide)).mpr (by decide)
  · intro h
    have hcontra := (c5_void_self_closing_amended "div"
      [("data-webstudio-element", "empty-1")] .nil 4 rfl rfl (by decide) (by decide)).mp h
    exact absurd hcontra (by decide)

/-! ## C4: inline-style conversion, amended (part_005 generator) -/

/-- A string with non-empty data is `!= ""` in the JS sense. -/
theorem bne_empty_of_data (s : String) (h : s.data ≠ []) : (s != "") = true := by
  have hne : s ≠ "" := by
    intro he
    apply h
    rw [he]
  simp [bne, hne]

/-- Trimming ignores a leading space. -/
theorem trimChars_cons_space (l : List Char) : trimChars (' ' :: l) = trimChars l := by
  unfold trimChars
  rw [List.dropWhile_cons_of_pos (by decide)]

/-- Trimming a list with a non-whitespace head yields a non-empty list. -/
theorem trimChars_ne_nil (c : Char) (l : List Char) (hc : c.isWhitespace = false) :
    trimChars (c :: l) ≠ [] := by
  unfold trimChars
  rw [List.dropWhile_cons_of_neg (by simp [hc])]
  intro h
  have h2 : (c :: l).reverse.dropWhile Char.isWhitespace = [] := by
    have := congrArg List.reverse h
    simpa using this
  rw [List.dropWhile_eq_nil_iff] at h2
  have := h2 c (by simp)
  rw [hc] at this
  cases this

/-- The styled document of the C4 scenario: a root with a styled `h1` (the
node just edited by `applyProperty`, its inline style now reading
`background-color: v`) and an untouched `p` sibling. -/
def styledDoc (v : String) : Dom :=
  .elem "div" [("data-webstudio-element", "root")]
    (.cons (.elem "h1" [("data-webstudio-element", "title"),
        ("style", "background-color: " ++ v)] (.cons (.text "Hello") .nil))
      (.cons (.elem "p" [("data-webstudio-element", "desc")]
        (.cons (.text "World") .nil)) .nil))

/-- C4 amended, part 1 of the machinery: the style-object conversion turns
`background-color: v` into `backgroundColor: 'v'` for every clean value. -/
theorem styleObjOf_background (v : String) (h1 : jsTrim v = v) (_h2 : v ≠ "")
    (h3 : (';' : Char) ∉ v.data) (h4 : (':' : Char) ∉ v.data) :
    Part005.styleObjOf ("background-color: " ++ v) =
      "backgroundColor: \x27" ++ v ++ "\x27" := by
  have hdata : ("background-color: " ++ v).data =
      ("background-color: " : String).data ++ v.data := String.data_append _ _
  have hnosemi : (';' : Char) ∉ ("background-color: " ++ v).data := by
    rw [hdata]
    intro hm
    rcases List.mem_append.mp hm with hm1 | hm1
    · exact absurd hm1 (by decide)
    · exact h3 hm1
  have hsplit1 : jsSplit ';' ("background-color: " ++ v) = ["background-color: " ++ v] := by
    unfold jsSplit
    rw [splitChars_noSep ';' _ hnosemi]
    rfl
  have hheadb : ("background-color: " ++ v).data = 'b' :: (("ackground-color: " : String).data ++ v.data) := by
    rw [hdata]
    rfl
  have htrimne : (jsTrim ("background-color: " ++ v) != "") = true := by
    apply bne_empty_of_data
    unfold jsTrim
    rw [hheadb]
    exact trimChars_ne_nil 'b' _ (by decide)
  have hsplit2 : jsSplit ':' ("background-color: " ++ v) = ["background-color", " " ++ v] := by
    unfold jsSplit
    have hshape : ("background-color: " ++ v).data =
        ("background-color" : String).data ++ ':' :: (' ' :: v.data) := by
      rw [hdata]
      rfl
    rw [hshape, splitChars_append_sep ':' _ _,
      splitChars_noSep ':' ("background-color" : String).data (by decide),
      splitChars_noSep ':' (' ' :: v.data) (by
        intro hm
        rcases List.mem_cons.mp hm with hm1 | hm1
        · cases hm1
        · exact h4 hm1)]
    simp only [List.map_cons, List.map_nil]
    congr 1
  have htrimv : jsTrim (" " ++ v) = v := by
    unfold jsTrim
    have : (" " ++ v).data = ' ' :: v.data := by
      rw [String.data_append]
      rfl
    rw [this, trimChars_cons_space]
    have hv : trimChars v.data = v.data := congrArg String.data h1
    rw [hv]
  have hcam : String.mk (Part005.camelChars (jsTrim "background-color").data) =
      "backgroundColor" := by decide
  have hvne : ((" " ++ v : String) == "") = false := by
    have : (" " ++ v : String) ≠ "" := by
      intro he
      have := congrArg String.data he
      rw [String.data_append] at this
      cases this
    exact beq_eq_false_iff_ne.mpr this
  have hdecl : Part005.cssDeclToJSX ("background-color: " ++ v) =
      "backgroundColor: \x27" ++ v ++ "\x27" := by
    unfold Part005.cssDeclToJSX
    rw [hsplit2]
    have hp : (("background-color" : String) == "") = false := by decide
    simp only [hp, hvne, Bool.or_self, Bool.false_eq_true, if_false, Bool.or_false]
    rw [htrimv, hcam]
    have hmerge : ("backgroundColor" ++ ": \x27" : String) = "backgroundColor: \x27" := by
      decide
    rw [← hmerge]
  unfold Part005.styleObjOf
  rw [hsplit1]
  simp only [List.filter, htrimne, List.map_cons, List.map_nil, hdecl]
  have hne2 : (("backgroundColor: \x27" ++ v ++ "\x27" : String) != "") = true := by
    apply bne_empty_of_data
    rw [String.data_append]
    intro he
    rcases List.append_eq_nil.mp he with ⟨he1, _⟩
    rw [String.data_append] at he1
    rcases List.append_eq_nil.mp he1 with ⟨he3, _⟩
    exact absurd he3 (by decide)
  simp only [List.filter, hne2]
  rfl

set_option maxRecDepth 10000

/-- C4 amended: (i) for every clean value `v` the part_005 generator turns
the freshly edited inline style `background-color: v` into the JSX attribute
`style={{backgroundColor: 'v'}}` — the property name camel-cased and the new
value preserved; (ii) regenerating the scenario document after the edit
yields source whose edited node carries the new value while every other
character of the output, in particular the sibling node, is unchanged
between two different edited values.  (The LayersPanel.tsx generator instead
drops inline style; see the counterexample.) -/
theorem c4_style_camelcase_amended (v : String) (h1 : jsTrim v = v) (h2 : v ≠ "")
    (h3 : (';' : Char) ∉ v.data) (h4 : (':' : Char) ∉ v.data) :
    Part005.attrToJSX "style" ("background-color: " ++ v) =
      some ("style=\x7b\x7b" ++ ("backgroundColor: \x27" ++ v ++ "\x27") ++ "\x7d\x7d") ∧
    Part005.generateJSXFromDOM (styledDoc "#ff0000") 4 =
      "    <div data-webstudio-element=\"root\">\n      <h1 data-webstudio-element=\"title\" style=\x7b\x7bbackgroundColor: \x27#ff0000\x27\x7d\x7d>\n        Hello\n      </h1>\n      <p data-webstudio-element=\"desc\">\n        World\n      </p>\n    </div>" ∧
    Part005.generateJSXFromDOM (styledDoc "#00ff00") 4 =
      "    <div data-webstudio-element=\"root\">\n      <h1 data-webstudio-element=\"title\" style=\x7b\x7bbackgroundColor: \x27#00ff00\x27\x7d\x7d>\n        Hello\n      </h1>\n      <p data-webstudio-element=\"desc\">\n        World\n      </p>\n    </div>" := by
  refine ⟨?_, by decide, by decide⟩
  unfold Part005.attrToJSX
  have hb1 : (("style" : String) == "class") = false := by decide
  have hb2 : strStarts "style" "data-" = false := by decide
  have hb3 : (("style" : String) == "style") = true := by decide
  have hvne : (("background-color: " ++ v) != "") = true := by
    apply bne_empty_of_data
    rw [String.data_append]
    intro he
    rcases List.append_eq_nil.mp he with ⟨he1, _⟩
    exact absurd he1 (by decide)
  simp only [hb1, hb2, hb3, hvne, Bool.false_eq_true, if_false, Bool.and_self, if_true,
    Bool.true_and]
  rw [styleObjOf_background v h1 h2 h3 h4]
  have hsone : (("backgroundColor: \x27" ++ v ++ "\x27" : String) != "") = true := by
    apply bne_empty_of_data
    rw [String.data_append, String.data_append]
    intro he
    rcases List.append_eq_nil.mp he with ⟨he1, _⟩
    rcases List.append_eq_nil.mp he1 with ⟨he3, _⟩
    exact absurd he3 (by decide)
  rw [hsone]
  rfl

/-- C4 witness: the red edit `#ff0000`. -/
theorem c4_style_camelcase_witness :
    Part005.attrToJSX "style" ("background-color: " ++ "#ff0000") =
      some ("style=\x7b\x7b" ++ ("backgroundColor: \x27" ++ "#ff0000" ++ "\x27") ++
        "\x7d\x7d") :=
  (c4_style_camelcase_amended "#ff0000" (by decide) (by decide) (by decide) (by decide)).1

/-! ## C9: tag minting, amended -/

/-- The numeric value of a decimal digit string (most significant first). -/
def digitsVal (l : List Char) : Nat :=
  l.foldl (fun a c => a * 10 + (c.toNat - 48)) 0

/-- Folding the digit evaluator from an accumulator. -/
theorem digitsVal_foldl_acc (ds : List Char) : ∀ a : Nat,
    ds.foldl (fun a c => a * 10 + (c.toNat - 48)) a =
      a * 10 ^ ds.length + digitsVal ds := by
  induction ds with
  | nil => intro a; simp [digitsVal]
  | cons c ds' ih =>
    intro a
    have h1 := ih (a * 10 + (c.toNat - 48))
    have h2 := ih (0 * 10 + (c.toNat - 48))
    simp only [List.foldl_cons, digitsVal] at h1 h2 ⊢
    rw [h1, h2, List.length_cons, pow_succ]
    ring

/-- A digit character of a value below ten evaluates back to the value. -/
theorem digitChar_val (m : Nat) (h : m < 10) : (Nat.digitChar m).toNat - 48 = m := by
  interval_cases m <;> decide

/-- `Nat.toDigitsCore` computes the decimal digits: its output evaluates to
the number, shifted past the accumulated suffix. -/
theorem toDigitsCore_val : ∀ (fuel n : Nat) (ds : List Char), n < 10 ^ fuel →
    digitsVal (Nat.toDigitsCore 10 fuel n ds) = n * 10 ^ ds.length + digitsVal ds := by
  intro fuel
  induction fuel with
  | zero =>
    intro n ds hn
    have hn0 : n = 0 := by simpa using hn
    subst hn0
    simp [Nat.toDigitsCore]
  | succ fuel ih =>
    intro n ds hn
    simp only [Nat.toDigitsCore]
    by_cases hz : n / 10 = 0
    · have hlt : n < 10 := by omega
      rw [if_pos hz]
      have hval : digitsVal (Nat.digitChar (n % 10) :: ds) =
          (n % 10) * 10 ^ ds.length + digitsVal ds := by
        simp only [digitsVal, List.foldl_cons]
        rw [show (0 * 10 + ((Nat.digitChar (n % 10)).toNat - 48)) =
          (Nat.digitChar (n % 10)).toNat - 48 by omega]
        rw [digitChar_val (n % 10) (Nat.mod_lt n (by norm_num))]
        exact digitsVal_foldl_acc ds (n % 10)
      rw [hval, Nat.mod_eq_of_lt hlt]
    · rw [if_neg hz]
      have hdiv : n / 10 < 10 ^ fuel := by
        rw [Nat.div_lt_iff_lt_mul (by norm_num)]
        calc n < 10 ^ (fuel + 1) := hn
        _ = 10 ^ fuel * 10 := by rw [pow_succ]
      rw [ih (n / 10) (Nat.digitChar (n % 10) :: ds) hdiv]
      have hval : digitsVal (Nat.digitChar (n % 10) :: ds) =
          (n % 10) * 10 ^ ds.length + digitsVal ds := by
        simp only [digitsVal, List.foldl_cons]
        rw [show (0 * 10 + ((Nat.digitChar (n % 10)).toNat - 48)) =
          (Nat.digitChar (n % 10)).toNat - 48 by omega]
        rw [digitChar_val (n % 10) (Nat.mod_lt n (by norm_num))]
        exact digitsVal_foldl_acc ds (n % 10)
      rw [hval, List.length_cons, pow_succ]
      have hmod := Nat.div_add_mod n 10
      calc n / 10 * (10 ^ ds.length * 10) + ((n % 10) * 10 ^ ds.length + digitsVal ds) =
          (10 * (n / 10) + n % 10) * 10 ^ ds.length + digitsVal ds := by ring
      _ = n * 10 ^ ds.length + digitsVal ds := by rw [hmod]

/-- The decimal digits of `n` evaluate to `n`. -/
theorem toDigits_val (n : Nat) : digitsVal (Nat.toDigits 10 n) = n := by
  unfold Nat.toDigits
  have hlt : n < 10 ^ (n + 1) :=
    calc n < 10 ^ n := Nat.lt_pow_self (by norm_num) n
    _ ≤ 10 ^ (n + 1) := Nat.pow_le_pow_right (by norm_num) (Nat.le_succ n)
  rw [toDigitsCore_val (n + 1) n [] hlt]
  simp [digitsVal]

/-- Decimal printing of naturals is injective. -/
theorem natRepr_inj (m n : Nat) (h : Nat.repr m = Nat.repr n) : m = n := by
  unfold Nat.repr at h
  have hdata := congrArg String.data h
  have hlist : Nat.toDigits 10 m = Nat.toDigits 10 n := hdata
  have := congrArg digitsVal hlist
  rw [toDigits_val, toDigits_val] at this
  exact this

/-- Digit characters of values below ten are decimal digits. -/
theorem digitChar_isDigit (m : Nat) (h : m < 10) : (Nat.digitChar m).isDigit = true := by
  interval_cases m <;> decide

/-- `Nat.toDigitsCore` produces only digit characters over a digit suffix. -/
theorem toDigitsCore_digits : ∀ (fuel n : Nat) (ds : List Char),
    (∀ c ∈ ds, c.isDigit = true) →
    ∀ c ∈ Nat.toDigitsCore 10 fuel n ds, c.isDigit = true := by
  intro fuel
  induction fuel with
  | zero => intro n ds hds; simpa [Nat.toDigitsCore] using hds
  | succ fuel ih =>
    intro n ds hds c hc
    simp only [Nat.toDigitsCore] at hc
    by_cases hz : n / 10 = 0
    · rw [if_pos hz] at hc
      rcases List.mem_cons.mp hc with h1 | h1
      · subst h1; exact digitChar_isDigit _ (Nat.mod_lt n (by norm_num))
      · exact hds c h1
    · rw [if_neg hz] at hc
      refine ih (n / 10) (Nat.digitChar (n % 10) :: ds) ?_ c hc
      intro d hd
      rcases List.mem_cons.mp hd with h1 | h1
      · subst h1; exact digitChar_isDigit _ (Nat.mod_lt n (by norm_num))
      · exact hds d h1

/-- The decimal representation of a natural contains no dash. -/
theorem natRepr_no_dash (t : Nat) : ('-' : Char) ∉ (Nat.repr t).data := by
  intro hm
  have hdig : ('-' : Char).isDigit = true := by
    have : (Nat.repr t).data = Nat.toDigits 10 t := rfl
    rw [this] at hm
    exact toDigitsCore_digits (t + 1) t [] (by intro c hc; cases hc) '-' hm
  cases hdig

/-- Taking while not-dash over a dash-free prefix followed by a dash yields
the prefix. -/
theorem takeWhile_no_dash (D : List Char) (hD : ('-' : Char) ∉ D) (r : List Char) :
    (D ++ '-' :: r).takeWhile (fun c => !(c == '-')) = D := by
  induction D with
  | nil => simp
  | cons c D' ih =>
    have hc : ¬c = '-' := fun hcc => hD (by simp [hcc])
    have hD' : ('-' : Char) ∉ D' := fun hm => hD (List.mem_cons_of_mem c hm)
    simp only [List.cons_append, List.takeWhile_cons]
    simp [hc, ih hD']

/-- Equal strings ending in a dash-free segment after a dash have equal
segments (the segment after the last dash is determined). -/
theorem dash_suffix_inj (a b D1 D2 : List Char) (h1 : ('-' : Char) ∉ D1)
    (h2 : ('-' : Char) ∉ D2) (he : a ++ '-' :: D1 = b ++ '-' :: D2) : D1 = D2 := by
  have hrev := congrArg List.reverse he
  simp only [List.reverse_append, List.reverse_cons, List.append_assoc] at hrev
  have ht := congrArg (List.takeWhile (fun c => !(c == '-'))) hrev
  rw [show (D1.reverse ++ (['-'] ++ a.reverse)) = D1.reverse ++ '-' :: a.reverse by simp,
    show (D2.reverse ++ (['-'] ++ b.reverse)) = D2.reverse ++ '-' :: b.reverse by simp,
    takeWhile_no_dash D1.reverse (by simpa using h1) a.reverse,
    takeWhile_no_dash D2.reverse (by simpa using h2) b.reverse] at ht
  exact List.reverse_inj.mp ht

/-- Core of the amended C9: two timestamp-stamped identifiers built as
`base ++ "-" ++ Date.now()` coincide only when the timestamps do. -/
theorem stamped_ne (c1 c2 : String) (t1 t2 : Nat) (h : t1 ≠ t2) :
    c1 ++ "-" ++ Nat.repr t1 ≠ c2 ++ "-" ++ Nat.repr t2 := by
  intro he
  have hdata := congrArg String.data he
  rw [String.data_append, String.data_append, String.data_append, String.data_append] at hdata
  have hdash : ("-" : String).data = ['-'] := rfl
  rw [hdash] at hdata
  have hseg := dash_suffix_inj c1.data c2.data (Nat.repr t1).data (Nat.repr t2).data
    (natRepr_no_dash t1) (natRepr_no_dash t2) (by simpa [List.append_assoc] using hdata)
  exact h (natRepr_inj t1 t2 (strEq_of_data hseg))

/-- Rewriting the duplication tag as a dash-stamped identifier: the base
absorbs the `-copy` infix. -/
theorem mintDuplicateTag_eq (a : String) (t : Nat) :
    Part005.mintDuplicateTag a t = (a ++ "-copy") ++ "-" ++ Nat.repr t := by
  apply strEq_of_data
  simp only [Part005.mintDuplicateTag, String.data_append, List.append_assoc]
  rfl

/-- C9 (amended): two `Date.now()`-stamped tags minted at DIFFERENT
timestamps are always distinct, whichever of the two mint sites produced
them (component insertion `` `${id}-${Date.now()}` `` in part_002, layer
duplication `` `${attr}-copy-${Date.now()}` `` in part_005); no uniqueness
holds at equal timestamps, as the counterexample shows. -/
theorem c9_distinct_timestamps_amended (c1 c2 a1 a2 : String) (t1 t2 : Nat) (h : t1 ≠ t2) :
    Part002.mintUniqueId c1 t1 ≠ Part002.mintUniqueId c2 t2 ∧
    Part002.mintUniqueId c1 t1 ≠ Part005.mintDuplicateTag a2 t2 ∧
    Part005.mintDuplicateTag a1 t1 ≠ Part005.mintDuplicateTag a2 t2 := by
  refine ⟨?_, ?_, ?_⟩
  · exact stamped_ne c1 c2 t1 t2 h
  · rw [mintDuplicateTag_eq]
    exact stamped_ne c1 (a2 ++ "-copy") t1 t2 h
  · rw [mintDuplicateTag_eq, mintDuplicateTag_eq]
    exact stamped_ne (a1 ++ "-copy") (a2 ++ "-copy") t1 t2 h

/-- Witness for C9 (amended) at the concrete timestamps 3 and 5. -/
theorem c9_distinct_timestamps_witness :
    (3 : Nat) ≠ 5 ∧
    (Part002.mintUniqueId "hero" 3 ≠ Part002.mintUniqueId "hero" 5 ∧
     Part002.mintUniqueId "hero" 3 ≠ Part005.mintDuplicateTag "hero" 5 ∧
     Part005.mintDuplicateTag "hero" 3 ≠ Part005.mintDuplicateTag "hero" 5) :=
  ⟨by decide, c9_distinct_timestamps_amended "hero" "hero" "hero" "hero" 3 5 (by decide)⟩
